import Mathlib

/-!
# Verification of the `specification-assistant` PDF extraction core

This file is a shallow embedding, in Lean 4, of the two components of the
repository that the specification's testable claims are about:

* `backend/services/llm_key_extractor.py` — the batched LLM key-extraction
  orchestrator (`LLMKeyExtractor._extract_keys_batch` / `extract_keys`);
* `backend/services/process_pdfs.py` — the structural PDF extractor
  (`is_line_in_any_table`, `process_single_page`, `process_single_pdf`).

Modelling conventions:

* Python `dict`s (insertion-ordered, last-write-wins, assignment to an
  existing key replaces its value in place) are embedded as association
  lists `List (String × β)` with the operations `dinsert` / `dlookup` /
  `dupdate` below, which reproduce exactly those semantics.
* Python `float` page coordinates are embedded as rationals `ℚ`; the claims
  under study are about comparison/branching logic, not rounding.
* The external LLM call (`self.multi_structured_llm.ainvoke`) is an opaque
  asynchronous capability; it is embedded as an oracle argument.  `none`
  models the call raising an exception, `some items` models a successful
  structured response whose `items` list carries `(key_name, result)` pairs.
* `pdfplumber` page objects are embedded as plain data (`RawPage` below)
  whose extraction methods may fail (`Except Unit`), modelling the library
  raising.
* Python exceptions that escape a function are modelled with `Except`;
  `PyError` distinguishes the two exception kinds relevant to the claims.
-/

/-! ## Python dict model -/

/-- A Python `dict` with string keys: an insertion-ordered association list.
Dicts built by the operations below never hold the same key twice. -/
abbrev PyDict (β : Type) : Type := List (String × β)

/-- `d[k] = v`: if `k` is already a key, its value is replaced in place
(keeping its position); otherwise `(k, v)` is appended at the end.  This is
CPython dict assignment semantics. -/
def dinsert {β : Type} : PyDict β → String → β → PyDict β
  | [], k, v => [(k, v)]
  | p :: d, k, v => if p.1 = k then (k, v) :: d else p :: dinsert d k v

/-- `d[k]` lookup: the entry with key `k`, if any. -/
def dlookup {β : Type} : PyDict β → String → Option β
  | [], _ => none
  | p :: d, k => if p.1 = k then some p.2 else dlookup d k

/-- The key list of a dict, in insertion order. -/
def dkeys {β : Type} (d : PyDict β) : List String :=
  d.map Prod.fst

/-- `k in d`. -/
def dmem {β : Type} (d : PyDict β) (k : String) : Prop :=
  k ∈ dkeys d

instance {β : Type} (d : PyDict β) (k : String) : Decidable (dmem d k) := by
  unfold dmem; infer_instance

/-- `d.update(e)` for an entry list `e`: insert every entry of `e` into
`d` in order (later duplicate keys in `e` win). -/
def dupdate {β : Type} (d : PyDict β) (e : List (String × β)) : PyDict β :=
  e.foldl (fun acc p => dinsert acc p.1 p.2) d

/-- A dict built from an entry list (a Python dict comprehension /
`dict(...)` constructor): fold `dinsert` starting from the empty dict. -/
def dictBuild {β : Type} (e : List (String × β)) : PyDict β :=
  dupdate [] e

/-- Merging a list of dicts into one, as the Python pattern
`m = {}; for d in ds: m.update(d)`. -/
def pyMerge {β : Type} (ds : List (PyDict β)) : PyDict β :=
  ds.foldl (fun acc d => dupdate acc d) []

/-! ### Dict lemmas -/

theorem dlookup_dinsert {β : Type} (d : PyDict β) (k : String) (v : β) (x : String) :
    dlookup (dinsert d k v) x = if x = k then some v else dlookup d x := by
  induction d with
  | nil =>
    by_cases h : x = k
    · simp [dinsert, dlookup, h]
    · simp [dinsert, dlookup, h, Ne.symm h]
  | cons p d ih =>
    by_cases hp : p.1 = k
    · subst hp
      simp only [dinsert, if_pos rfl, dlookup]
      by_cases h : x = p.1
      · simp [h]
      · simp [h, Ne.symm h]
    · simp only [dinsert, if_neg hp, dlookup]
      by_cases hx : p.1 = x
      · have hxk : ¬ x = k := fun hc => hp (hx.symm ▸ hc ▸ rfl)
        simp [hx, hxk]
      · simp [hx, ih]

theorem mem_dkeys_dinsert {β : Type} (d : PyDict β) (k : String) (v : β) (x : String) :
    x ∈ dkeys (dinsert d k v) ↔ x = k ∨ x ∈ dkeys d := by
  induction d with
  | nil => simp [dinsert, dkeys]
  | cons p d ih =>
    by_cases hp : p.1 = k
    · simp [dinsert, dkeys, hp]
    · simp only [dinsert, if_neg hp, dkeys, List.map_cons, List.mem_cons]
      rw [show List.map Prod.fst (dinsert d k v) = dkeys (dinsert d k v) from rfl, ih]
      rw [show List.map Prod.fst d = dkeys d from rfl]
      tauto

theorem dmem_dinsert {β : Type} (d : PyDict β) (k : String) (v : β) (x : String) :
    dmem (dinsert d k v) x ↔ x = k ∨ dmem d x := by
  unfold dmem; exact mem_dkeys_dinsert d k v x

theorem dmem_iff_dlookup_isSome {β : Type} (d : PyDict β) (k : String) :
    dmem d k ↔ (dlookup d k).isSome = true := by
  induction d with
  | nil => simp [dmem, dkeys, dlookup]
  | cons p d ih =>
    by_cases hp : p.1 = k
    · simp [dmem, dkeys, dlookup, hp]
    · simp only [dmem, dkeys, List.map_cons, List.mem_cons, dlookup, if_neg hp]
      rw [show List.map Prod.fst d = dkeys d from rfl]
      constructor
      · intro h
        rcases h with h | h
        · exact absurd h.symm hp
        · exact ih.mp h
      · intro h; exact Or.inr (ih.mpr h)

theorem dlookup_eq_none_of_not_dmem {β : Type} (d : PyDict β) (k : String)
    (h : ¬ dmem d k) : dlookup d k = none := by
  rcases hl : dlookup d k with _ | v
  · rfl
  · exact absurd ((dmem_iff_dlookup_isSome d k).mpr (by simp [hl])) h

theorem dkeys_nodup_dinsert {β : Type} (d : PyDict β) (k : String) (v : β)
    (h : (dkeys d).Nodup) : (dkeys (dinsert d k v)).Nodup := by
  induction d with
  | nil => simp [dinsert, dkeys]
  | cons p d ih =>
    by_cases hp : p.1 = k
    · simpa [dinsert, dkeys, hp] using (by simpa [dkeys, hp] using h)
    · simp only [dkeys, List.map_cons, List.nodup_cons] at h
      simp only [dinsert, if_neg hp, dkeys, List.map_cons, List.nodup_cons]
      refine ⟨?_, ih h.2⟩
      intro hc
      rw [show List.map Prod.fst (dinsert d k v) = dkeys (dinsert d k v) from rfl,
        mem_dkeys_dinsert] at hc
      rcases hc with hc | hc
      · exact hp hc
      · exact h.1 (by simpa [dkeys] using hc)

theorem dlookup_dupdate {β : Type} (e : List (String × β)) (d : PyDict β) (x : String) :
    dlookup (dupdate d e) x =
      match dlookup (dictBuild e) x with
      | some w => some w
      | none => dlookup d x := by
  induction e generalizing d with
  | nil => rfl
  | cons p e ih =>
    have step : ∀ d' : PyDict β, dupdate d' (p :: e) = dupdate (dinsert d' p.1 p.2) e :=
      fun _ => rfl
    rw [step d, ih (dinsert d p.1 p.2)]
    have hb : dictBuild (p :: e) = dupdate (dinsert [] p.1 p.2) e := rfl
    rw [hb, ih (dinsert [] p.1 p.2)]
    rcases hbe : dlookup (dictBuild e) x with _ | w
    · simp only
      rw [dlookup_dinsert, dlookup_dinsert]
      by_cases hx : x = p.1
      · simp [hx]
      · simp [hx, dlookup]
    · simp only

theorem mem_dkeys_dupdate {β : Type} (e : List (String × β)) (d : PyDict β) (x : String) :
    x ∈ dkeys (dupdate d e) ↔ x ∈ dkeys d ∨ x ∈ e.map Prod.fst := by
  induction e generalizing d with
  | nil => simp [dupdate]
  | cons p e ih =>
    have step : dupdate d (p :: e) = dupdate (dinsert d p.1 p.2) e := rfl
    rw [step, ih, mem_dkeys_dinsert]
    simp only [List.map_cons, List.mem_cons]
    tauto

theorem mem_dkeys_dictBuild {β : Type} (e : List (String × β)) (x : String) :
    x ∈ dkeys (dictBuild e) ↔ x ∈ e.map Prod.fst := by
  rw [dictBuild, mem_dkeys_dupdate]
  simp [dkeys]

theorem dkeys_nodup_dupdate {β : Type} (e : List (String × β)) (d : PyDict β)
    (h : (dkeys d).Nodup) : (dkeys (dupdate d e)).Nodup := by
  induction e generalizing d with
  | nil => simpa [dupdate] using h
  | cons p e ih =>
    have step : dupdate d (p :: e) = dupdate (dinsert d p.1 p.2) e := rfl
    rw [step]
    exact ih _ (dkeys_nodup_dinsert d p.1 p.2 h)

/-- Uniform-value lookup: if every entry of `e` carrying key `k` carries the
same value `v`, and either `(k, v)` occurs in `e` or the base dict already
maps `k` to `v`, then after the update `k` maps to `v`. -/
theorem dlookup_dupdate_uniform {β : Type} (e : List (String × β)) (d : PyDict β)
    (k : String) (v : β) (huni : ∀ p ∈ e, p.1 = k → p.2 = v)
    (hsrc : (k, v) ∈ e ∨ dlookup d k = some v) :
    dlookup (dupdate d e) k = some v := by
  induction e generalizing d with
  | nil =>
    rcases hsrc with h | h
    · simp at h
    · simpa [dupdate] using h
  | cons p e ih =>
    have step : dupdate d (p :: e) = dupdate (dinsert d p.1 p.2) e := rfl
    rw [step]
    by_cases hp : p.1 = k
    · have hv : p.2 = v := huni p (by simp) hp
      refine ih _ (fun q hq hqk => huni q (List.mem_cons_of_mem p hq) hqk) (Or.inr ?_)
      rw [dlookup_dinsert]
      simp [hp, hv]
    · rcases hsrc with h | h
      · rcases List.mem_cons.mp h with h | h
        · exact absurd (congrArg Prod.fst h).symm hp
        · exact ih _ (fun q hq hqk => huni q (List.mem_cons_of_mem p hq) hqk) (Or.inl h)
      · refine ih _ (fun q hq hqk => huni q (List.mem_cons_of_mem p hq) hqk) (Or.inr ?_)
        rw [dlookup_dinsert, if_neg (fun hc : k = p.1 => hp hc.symm)]
        exact h

theorem mem_dkeys_pyMerge {β : Type} (ds : List (PyDict β)) (x : String) :
    x ∈ dkeys (pyMerge ds) ↔ ∃ d ∈ ds, x ∈ dkeys d := by
  have gen : ∀ (ds : List (PyDict β)) (acc : PyDict β),
      x ∈ dkeys (ds.foldl (fun acc d => dupdate acc d) acc) ↔
        x ∈ dkeys acc ∨ ∃ d ∈ ds, x ∈ dkeys d := by
    intro ds
    induction ds with
    | nil => simp
    | cons d ds ih =>
      intro acc
      simp only [List.foldl_cons, ih, mem_dkeys_dupdate]
      rw [show List.map Prod.fst d = dkeys d from rfl]
      simp only [List.mem_cons]
      constructor
      · rintro ((h | h) | ⟨d', hd', hx⟩)
        · exact Or.inl h
        · exact Or.inr ⟨d, Or.inl rfl, h⟩
        · exact Or.inr ⟨d', Or.inr hd', hx⟩
      · rintro (h | ⟨d', hd' | hd', hx⟩)
        · exact Or.inl (Or.inl h)
        · exact Or.inl (Or.inr (hd' ▸ hx))
        · exact Or.inr ⟨d', hd', hx⟩
  rw [pyMerge, gen]
  simp [dkeys]

theorem dkeys_nodup_pyMerge {β : Type} (ds : List (PyDict β)) :
    (dkeys (pyMerge ds)).Nodup := by
  have gen : ∀ (ds : List (PyDict β)) (acc : PyDict β), (dkeys acc).Nodup →
      (dkeys (ds.foldl (fun acc d => dupdate acc d) acc)).Nodup := by
    intro ds
    induction ds with
    | nil => intro acc h; simpa using h
    | cons d ds ih =>
      intro acc h
      exact ih _ (dkeys_nodup_dupdate d acc h)
  exact gen ds [] (by simp [dkeys])

/-- Lookup through a fold of updates only depends on the lookup value of the
accumulator at the queried key. -/
theorem dlookup_foldl_dupdate_congr {β : Type} (ds : List (PyDict β))
    (a b : PyDict β) (k : String) (h : dlookup a k = dlookup b k) :
    dlookup (ds.foldl (fun acc d => dupdate acc d) a) k =
      dlookup (ds.foldl (fun acc d => dupdate acc d) b) k := by
  induction ds generalizing a b with
  | nil => simpa using h
  | cons d ds ih =>
    simp only [List.foldl_cons]
    refine ih _ _ ?_
    rw [dlookup_dupdate, dlookup_dupdate, h]

/-- Dropping from the merge a dict that does not contain the queried key
does not change the merged lookup at that key. -/
theorem dlookup_pyMerge_eraseIdx {β : Type} (ds : List (PyDict β)) (j : Nat)
    (mj : PyDict β) (k : String) (hj : ds.get? j = some mj) (hk : ¬ dmem mj k) :
    dlookup (pyMerge ds) k = dlookup (pyMerge (ds.eraseIdx j)) k := by
  have gen : ∀ (ds : List (PyDict β)) (j : Nat) (acc : PyDict β),
      ds.get? j = some mj →
      dlookup (ds.foldl (fun acc d => dupdate acc d) acc) k =
        dlookup ((ds.eraseIdx j).foldl (fun acc d => dupdate acc d) acc) k := by
    intro ds
    induction ds with
    | nil => intro j acc h; simp at h
    | cons d ds ih =>
      intro j acc h
      cases j with
      | zero =>
        have hd : d = mj := by simpa using h
        subst hd
        simp only [List.eraseIdx_cons_zero, List.foldl_cons]
        refine dlookup_foldl_dupdate_congr ds _ acc k ?_
        rw [dlookup_dupdate]
        have : dlookup (dictBuild d) k = none := by
          refine dlookup_eq_none_of_not_dmem _ _ ?_
          intro hc
          exact hk ((mem_dkeys_dictBuild d k).mp hc)
        simp [this]
      | succ j =>
        simp only [List.eraseIdx_cons_succ, List.foldl_cons]
        exact ih j _ (by simpa using h)
  exact gen ds j [] hj

/-! ## LLM key-extraction orchestrator
(`backend/services/llm_key_extractor.py`) -/

/-- The two Python exception kinds that `extract_keys` itself can raise. -/
inductive PyError : Type
  | valueError         -- `range()` arg 3 must not be zero
  | zeroDivisionError  -- `elapsed_time / len(batches)` with zero batches
deriving DecidableEq

/-- Python `range(0, stop, step)` with a possibly non-positive step:
`step = 0` raises `ValueError`; a negative step yields no indices (the stop
is never below the start `0`); a positive step yields
`0, step, 2*step, ...` while `< stop`, i.e. `ceil(stop/step)` indices. -/
def pyRangeStep (stop : Nat) (step : Int) : Option (List Nat) :=
  if step = 0 then none
  else if step < 0 then some []
  else some ((List.range ((stop + step.toNat - 1) / step.toNat)).map (fun i => i * step.toNat))

/-- Line 202 of `llm_key_extractor.py`:
`batches = [key_names[i : i + batch_size] for i in range(0, len(key_names), batch_size)]`.
A Python slice `key_names[i : i + batch_size]` with `i ≥ 0` and a positive
`batch_size` is `(key_names.drop i).take batch_size`; for non-positive
`batch_size` the index list is empty (or `range` raises), so the slice
expression is never evaluated there. -/
def extractBatches (key_names : List String) (batch_size : Int) : Option (List (List String)) :=
  (pyRangeStep key_names.length batch_size).map
    (fun idxs => idxs.map (fun i => (key_names.drop i).take batch_size.toNat))

/-- `LLMKeyExtractor._extract_keys_batch` (lines 104-167), with the LLM call
abstracted: `resp = none` models `ainvoke` raising (the `except` branch
returns `{name: None for name in key_names}`); `resp = some items` models a
successful structured response, whose items are turned into a dict keyed by
`key_name` and then every requested key still missing is set to `None`. -/
def extract_keys_batch {α : Type} (resp : Option (List (String × Option α)))
    (key_names : List String) : PyDict (Option α) :=
  match resp with
  | some items =>
      let results_by_key := dictBuild items
      key_names.foldl (fun d k => if dmem d k then d else dinsert d k none) results_by_key
  | none => dictBuild (key_names.map (fun name => (name, none)))

/-- `LLMKeyExtractor.extract_keys` (lines 170-226).  `oracle i batch pdf_data`
stands for the outcome of batch `i`'s model call (the per-batch coroutine
`run_batch`); `asyncio.gather` returns the per-batch results in input order.
After the merge, the completion log line divides by `len(batches)`, which
raises `ZeroDivisionError` when the planner produced zero batches (possible
only for a negative `batch_size` with nonempty `key_names`).  `pdf_data` is
never validated or branched on; it only feeds the model call. -/
def extract_keys {α σ : Type}
    (oracle : Nat → List String → List σ → Option (List (String × Option α)))
    (key_names : List String) (pdf_data : List σ) (batch_size : Int) :
    Except PyError (PyDict (Option α)) :=
  if key_names.isEmpty then .ok []
  else
    match extractBatches key_names batch_size with
    | none => .error .valueError
    | some batches =>
        if batches.length = 0 then .error .zeroDivisionError
        else .ok (pyMerge (batches.enum.map
          (fun p => extract_keys_batch (oracle p.1 p.2 pdf_data) p.2)))

/-! ### Planner lemmas -/

/-- Fuel-indexed chunking recursion used to reason about the planner. -/
def chunksAux (b : Nat) : Nat → List String → List (List String)
  | 0, _ => []
  | _, [] => []
  | fuel + 1, x :: xs => ((x :: xs).take (b + 1)) :: chunksAux b fuel ((x :: xs).drop (b + 1))

theorem chunksAux_flatten (b : Nat) :
    ∀ (fuel : Nat) (l : List String), l.length ≤ fuel → (chunksAux b fuel l).flatten = l := by
  intro fuel
  induction fuel with
  | zero =>
    intro l hl
    have : l = [] := List.length_eq_zero.mp (Nat.le_zero.mp hl)
    subst this; rfl
  | succ fuel ih =>
    intro l hl
    cases l with
    | nil => rfl
    | cons x xs =>
      have hlen : ((x :: xs).drop (b + 1)).length ≤ fuel := by
        rw [List.length_drop]
        simp only [List.length_cons] at hl ⊢
        omega
      simp only [chunksAux, List.flatten_cons, ih _ hlen]
      exact List.take_append_drop (b + 1) (x :: xs)

theorem chunks_eq_chunksAux (b : Nat) :
    ∀ (fuel : Nat) (l : List String), l.length ≤ fuel →
      (List.range ((l.length + b) / (b + 1))).map (fun i => (l.drop (i * (b + 1))).take (b + 1)) =
        chunksAux b fuel l := by
  intro fuel
  induction fuel with
  | zero =>
    intro l hl
    have : l = [] := List.length_eq_zero.mp (Nat.le_zero.mp hl)
    subst this
    have hz : b / (b + 1) = 0 := Nat.div_eq_of_lt (by omega)
    simp [hz, chunksAux]
  | succ fuel ih =>
    intro l hl
    cases l with
    | nil =>
      have hz : b / (b + 1) = 0 := Nat.div_eq_of_lt (by omega)
      simp [hz, chunksAux]
    | cons x xs =>
      have hcount : ((x :: xs).length + b) / (b + 1) =
          (((x :: xs).length - 1) / (b + 1)) + 1 := by
        have h1 : (x :: xs).length + b = ((x :: xs).length - 1) + (b + 1) := by
          simp only [List.length_cons]; omega
        rw [h1, Nat.add_div_right _ (Nat.succ_pos b)]
      have hdroplen : ((x :: xs).drop (b + 1)).length ≤ fuel := by
        rw [List.length_drop]
        simp only [List.length_cons] at hl ⊢
        omega
      have hdropcount : (((x :: xs).drop (b + 1)).length + b) / (b + 1) =
          ((x :: xs).length - 1) / (b + 1) := by
        rw [List.length_drop]
        rcases Nat.lt_or_ge (x :: xs).length (b + 1) with hlt | hge
        · have h0 : (x :: xs).length - (b + 1) = 0 := by omega
          rw [h0]
          rw [Nat.div_eq_of_lt (by omega), Nat.div_eq_of_lt (by simp at hlt ⊢; omega)]
        · congr 1
          omega
      rw [hcount, List.range_succ_eq_map, List.map_cons]
      simp only [Nat.zero_mul, List.drop_zero, List.map_map]
      rw [chunksAux]
      congr 1
      have hstep :
          List.map ((fun i => ((x :: xs).drop (i * (b + 1))).take (b + 1)) ∘ Nat.succ)
              (List.range ((((x :: xs).drop (b + 1)).length + b) / (b + 1))) =
            List.map (fun i => (((x :: xs).drop (b + 1)).drop (i * (b + 1))).take (b + 1))
              (List.range ((((x :: xs).drop (b + 1)).length + b) / (b + 1))) := by
        apply List.map_congr_left
        intro i _
        simp only [Function.comp_apply]
        rw [List.drop_drop, Nat.succ_mul]
        rw [Nat.add_comm (i * (b + 1)) (b + 1)]
      rw [← hdropcount, hstep, ih _ hdroplen]

theorem extractBatches_pos (key_names : List String) (B : Int) (hB : 1 ≤ B) :
    extractBatches key_names B =
      some ((List.range ((key_names.length + B.toNat - 1) / B.toNat)).map
        (fun i => (key_names.drop (i * B.toNat)).take B.toNat)) := by
  have h0 : ¬ B = 0 := by omega
  have h1 : ¬ B < 0 := by omega
  unfold extractBatches pyRangeStep
  rw [if_neg h0, if_neg h1]
  simp [List.map_map, Function.comp_def]

theorem batchCount_pos (N b : Nat) (hb : 1 ≤ b) (hN : 1 ≤ N) : 1 ≤ (N + b - 1) / b := by
  rw [Nat.le_div_iff_mul_le (by omega)]
  omega

theorem extract_keys_ok {α σ : Type}
    (oracle : Nat → List String → List σ → Option (List (String × Option α)))
    (key_names : List String) (pdf_data : List σ) (B : Int)
    (hB : 1 ≤ B) (hne : key_names ≠ []) :
    ∃ batches, extractBatches key_names B = some batches ∧ batches ≠ [] ∧
      extract_keys oracle key_names pdf_data B =
        .ok (pyMerge (batches.enum.map
          (fun p => extract_keys_batch (oracle p.1 p.2 pdf_data) p.2))) := by
  have hb1 : 1 ≤ B.toNat := by omega
  have hN1 : 1 ≤ key_names.length := by
    cases key_names with
    | nil => exact absurd rfl hne
    | cons x xs => simp
  have hlen : ((List.range ((key_names.length + B.toNat - 1) / B.toNat)).map
      (fun i => (key_names.drop (i * B.toNat)).take B.toNat)).length =
      (key_names.length + B.toNat - 1) / B.toNat := by
    rw [List.length_map, List.length_range]
  have hpos := batchCount_pos key_names.length B.toNat hb1 hN1
  refine ⟨_, extractBatches_pos key_names B hB, ?_, ?_⟩
  · intro hc
    rw [hc] at hlen
    simp at hlen
    omega
  · unfold extract_keys
    rw [if_neg (by simpa [List.isEmpty_iff] using hne), extractBatches_pos key_names B hB]
    simp only
    rw [if_neg (by rw [hlen]; omega)]

/-! ### Per-batch reconciliation lemmas -/

theorem fill_preserves {α : Type} (bs : List String) (d : PyDict (Option α)) (k : String)
    (v : Option α) (h : dlookup d k = some v) :
    dlookup (bs.foldl (fun d k => if dmem d k then d else dinsert d k none) d) k = some v := by
  induction bs generalizing d with
  | nil => simpa using h
  | cons b bs ih =>
    simp only [List.foldl_cons]
    by_cases hb : dmem d b
    · rw [if_pos hb]; exact ih d h
    · rw [if_neg hb]
      refine ih _ ?_
      have hbk : ¬ b = k := by
        intro hc
        subst hc
        exact hb ((dmem_iff_dlookup_isSome d b).mpr (by simp [h]))
      rw [dlookup_dinsert, if_neg (fun hc : k = b => hbk hc.symm)]
      exact h

theorem fill_mem_iff {α : Type} (bs : List String) (d : PyDict (Option α)) (x : String) :
    dmem (bs.foldl (fun d k => if dmem d k then d else dinsert d k none) d) x ↔
      dmem d x ∨ x ∈ bs := by
  induction bs generalizing d with
  | nil => simp
  | cons b bs ih =>
    simp only [List.foldl_cons, List.mem_cons]
    by_cases hb : dmem d b
    · rw [if_pos hb, ih]
      by_cases hx : x = b
      · subst hx; tauto
      · tauto
    · rw [if_neg hb, ih, dmem_dinsert]
      tauto

theorem fill_lookup_none {α : Type} (bs : List String) (d : PyDict (Option α)) (k : String)
    (hk : k ∈ bs) (hd : ¬ dmem d k) :
    dlookup (bs.foldl (fun d k => if dmem d k then d else dinsert d k none) d) k = some none := by
  induction bs generalizing d with
  | nil => simp at hk
  | cons b bs ih =>
    simp only [List.foldl_cons]
    by_cases hx : k = b
    · subst hx
      rw [if_neg hd]
      refine fill_preserves bs _ k none ?_
      rw [dlookup_dinsert, if_pos rfl]
    · have hk' : k ∈ bs := by
        rcases List.mem_cons.mp hk with h | h
        · exact absurd h hx
        · exact h
      by_cases hb : dmem d b
      · rw [if_pos hb]; exact ih d hk' hd
      · rw [if_neg hb]
        refine ih _ hk' ?_
        rw [dmem_dinsert]
        rintro (h | h)
        · exact hx h
        · exact hd h

theorem extract_keys_batch_none_lookup {α : Type} (bs : List String) (k : String) :
    dlookup (extract_keys_batch (α := α) none bs) k =
      if k ∈ bs then some none else none := by
  unfold extract_keys_batch
  by_cases hk : k ∈ bs
  · rw [if_pos hk, dictBuild]
    refine dlookup_dupdate_uniform _ _ k none ?_ (Or.inl ?_)
    · intro p hp _
      rcases List.mem_map.mp hp with ⟨n, _, hn⟩
      rw [← hn]
    · exact List.mem_map.mpr ⟨k, hk, rfl⟩
  · rw [if_neg hk]
    refine dlookup_eq_none_of_not_dmem _ _ ?_
    intro hc
    have := (mem_dkeys_dictBuild _ k).mp hc
    rw [List.map_map] at this
    exact hk (by simpa using this)

theorem extract_keys_batch_some_mem {α : Type} (items : List (String × Option α))
    (bs : List String) (x : String) :
    dmem (extract_keys_batch (some items) bs) x ↔ x ∈ items.map Prod.fst ∨ x ∈ bs := by
  unfold extract_keys_batch
  simp only
  rw [fill_mem_iff]
  constructor
  · rintro (h | h)
    · exact Or.inl ((mem_dkeys_dictBuild items x).mp h)
    · exact Or.inr h
  · rintro (h | h)
    · exact Or.inl ((mem_dkeys_dictBuild items x).mpr h)
    · exact Or.inr h

theorem extract_keys_batch_mem_of_req {α : Type}
    (resp : Option (List (String × Option α))) (bs : List String) (k : String)
    (hk : k ∈ bs) : dmem (extract_keys_batch resp bs) k := by
  cases resp with
  | some items => exact (extract_keys_batch_some_mem items bs k).mpr (Or.inr hk)
  | none =>
    unfold extract_keys_batch
    show k ∈ dkeys _
    rw [mem_dkeys_dictBuild, List.map_map]
    simpa using hk

theorem extract_keys_batch_keys_sub {α : Type}
    (resp : Option (List (String × Option α))) (bs : List String) (x : String)
    (hx : dmem (extract_keys_batch resp bs) x) :
    x ∈ bs ∨ ∃ items, resp = some items ∧ x ∈ items.map Prod.fst := by
  cases resp with
  | some items =>
    rcases (extract_keys_batch_some_mem items bs x).mp hx with h | h
    · exact Or.inr ⟨items, rfl, h⟩
    · exact Or.inl h
  | none =>
    unfold extract_keys_batch at hx
    replace hx := (mem_dkeys_dictBuild _ x).mp hx
    rw [List.map_map] at hx
    exact Or.inl (by simpa using hx)

theorem extract_keys_batch_some_missing {α : Type} (items : List (String × Option α))
    (bs : List String) (k : String) (hk : k ∈ bs) (hmiss : k ∉ items.map Prod.fst) :
    dlookup (extract_keys_batch (some items) bs) k = some none := by
  unfold extract_keys_batch
  simp only
  refine fill_lookup_none bs _ k hk ?_
  intro hc
  exact hmiss ((mem_dkeys_dictBuild items k).mp hc)

/-! ## Claim C1 -/

/-- **C1.**  For every list of `N ≥ 0` field names and every batch size
`B ≥ 1`, the batch-planning step of `extract_keys`
(`batches = [key_names[i : i + batch_size] for i in range(0, len(key_names), batch_size)]`)
produces exactly `⌈N / B⌉` batches; batch `i` equals the slice
`key_names[i*B : (i+1)*B]` (drop `i*B` elements, then take `B`, so only the
last batch may be shorter than `B`); and the concatenation of the batches
in order equals the original list exactly — no duplicates, no omissions,
no reordering. -/
theorem C1_batch_planning_exact (key_names : List String) (B : Int) (hB : 1 ≤ B) :
    ∃ batches, extractBatches key_names B = some batches ∧
      batches.length = (key_names.length + B.toNat - 1) / B.toNat ∧
      (∀ i (h : i < batches.length),
        batches[i] = (key_names.drop (i * B.toNat)).take B.toNat) ∧
      batches.flatten = key_names := by
  refine ⟨_, extractBatches_pos key_names B hB, ?_, ?_, ?_⟩
  · rw [List.length_map, List.length_range]
  · intro i h
    simp only [List.getElem_map, List.getElem_range]
  · have hb1 : 1 ≤ B.toNat := by omega
    rcases hbn : B.toNat with _ | b
    · omega
    · have hcount : key_names.length + (b + 1) - 1 = key_names.length + b := by omega
      rw [hcount, chunks_eq_chunksAux b key_names.length key_names (Nat.le_refl _)]
      exact chunksAux_flatten b key_names.length key_names (Nat.le_refl _)

/-- Witness for C1: five names, batch size 2 — three batches
`[["a","b"], ["c","d"], ["e"]]` whose concatenation restores the list. -/
theorem C1_batch_planning_exact_witness :
    extractBatches ["a", "b", "c", "d", "e"] 2 = some [["a", "b"], ["c", "d"], ["e"]] ∧
      (∃ batches, extractBatches ["a", "b", "c", "d", "e"] 2 = some batches ∧
        batches.length =
          ((["a", "b", "c", "d", "e"] : List String).length + (2 : Int).toNat - 1) /
            (2 : Int).toNat ∧
        (∀ i (h : i < batches.length),
          batches[i] = ((["a", "b", "c", "d", "e"] : List String).drop
            (i * (2 : Int).toNat)).take (2 : Int).toNat) ∧
        batches.flatten = ["a", "b", "c", "d", "e"]) :=
  ⟨by decide, C1_batch_planning_exact ["a", "b", "c", "d", "e"] 2 (by decide)⟩

/-! ### Merged-result helpers -/

theorem mem_results_iff {α σ : Type}
    (oracle : Nat → List String → List σ → Option (List (String × Option α)))
    (pdf_data : List σ) (batches : List (List String)) (r : PyDict (Option α)) :
    r ∈ batches.enum.map (fun p => extract_keys_batch (oracle p.1 p.2 pdf_data) p.2) ↔
      ∃ j, ∃ h : j < batches.length,
        r = extract_keys_batch (oracle j batches[j] pdf_data) batches[j] := by
  rw [List.mem_map]
  constructor
  · rintro ⟨p, hp, hr⟩
    rcases List.mem_iff_getElem.mp hp with ⟨j, hj, hpj⟩
    have hj' : j < batches.length := by simpa using hj
    refine ⟨j, hj', ?_⟩
    rw [List.getElem_enum] at hpj
    rw [← hr, ← hpj]
  · rintro ⟨j, hj, hr⟩
    refine ⟨(j, batches[j]), ?_, hr.symm⟩
    rw [List.mem_iff_getElem]
    exact ⟨j, by simpa using hj, by rw [List.getElem_enum]⟩

theorem dmem_merged_iff {α σ : Type}
    (oracle : Nat → List String → List σ → Option (List (String × Option α)))
    (pdf_data : List σ) (batches : List (List String)) (x : String) :
    dmem (pyMerge (batches.enum.map
        (fun p => extract_keys_batch (oracle p.1 p.2 pdf_data) p.2))) x ↔
      ∃ j, ∃ h : j < batches.length,
        dmem (extract_keys_batch (oracle j batches[j] pdf_data) batches[j]) x := by
  show x ∈ dkeys _ ↔ _
  rw [mem_dkeys_pyMerge]
  constructor
  · rintro ⟨d, hd, hx⟩
    rcases (mem_results_iff oracle pdf_data batches d).mp hd with ⟨j, hj, hdj⟩
    exact ⟨j, hj, by rw [← hdj]; exact hx⟩
  · rintro ⟨j, hj, hx⟩
    exact ⟨_, (mem_results_iff oracle pdf_data batches _).mpr ⟨j, hj, rfl⟩, hx⟩

theorem extractBatches_flatten (key_names : List String) (B : Int) (hB : 1 ≤ B)
    (batches : List (List String)) (h : extractBatches key_names B = some batches) :
    batches.flatten = key_names := by
  rw [extractBatches_pos key_names B hB] at h
  replace h := Option.some.inj h
  subst h
  rcases hbn : B.toNat with _ | b
  · omega
  · have hcount : key_names.length + (b + 1) - 1 = key_names.length + b := by omega
    rw [hcount, chunks_eq_chunksAux b key_names.length key_names (Nat.le_refl _)]
    exact chunksAux_flatten b key_names.length key_names (Nat.le_refl _)

theorem extract_keys_ok_inv {α σ : Type}
    (oracle : Nat → List String → List σ → Option (List (String × Option α)))
    (key_names : List String) (pdf_data : List σ) (B : Int) (m : PyDict (Option α))
    (h : extract_keys oracle key_names pdf_data B = .ok m) :
    (key_names = [] ∧ m = []) ∨
      ∃ batches, extractBatches key_names B = some batches ∧ batches ≠ [] ∧
        m = pyMerge (batches.enum.map
          (fun p => extract_keys_batch (oracle p.1 p.2 pdf_data) p.2)) := by
  unfold extract_keys at h
  split at h
  · next he => exact Or.inl ⟨List.isEmpty_iff.mp he, (Except.ok.inj h).symm⟩
  · next he =>
    split at h
    · exact absurd h (by simp)
    · next batches hb =>
      split at h
      · exact absurd h (by simp)
      · next hl =>
        exact Or.inr ⟨batches, hb, fun hc => hl (by rw [hc]; rfl), (Except.ok.inj h).symm⟩

theorem extractBatches_nil (B : Int) (batches : List (List String))
    (h : extractBatches [] B = some batches) : batches = [] := by
  unfold extractBatches pyRangeStep at h
  by_cases h0 : B = 0
  · rw [if_pos h0] at h
    simp at h
  · rw [if_neg h0] at h
    by_cases h1 : B < 0
    · rw [if_pos h1] at h
      simpa using h.symm
    · rw [if_neg h1] at h
      have hc : (List.length ([] : List String) + B.toNat - 1) / B.toNat = 0 := by
        have hb1 : 1 ≤ B.toNat := by omega
        simp only [List.length_nil, Nat.zero_add]
        exact Nat.div_eq_of_lt (by omega)
      rw [hc] at h
      simpa using h.symm

theorem dlookup_mem {β : Type} (d : PyDict β) (k : String) (v : β)
    (h : dlookup d k = some v) : (k, v) ∈ d := by
  induction d with
  | nil => simp [dlookup] at h
  | cons p d ih =>
    by_cases hp : p.1 = k
    · rw [dlookup, if_pos hp] at h
      have hv : p.2 = v := Option.some.inj h
      exact List.mem_cons.mpr (Or.inl (by rw [← hp, ← hv]))
    · rw [dlookup, if_neg hp] at h
      exact List.mem_cons_of_mem p (ih h)

theorem dlookup_of_mem_nodup {β : Type} (d : PyDict β) (p : String × β)
    (hnd : (dkeys d).Nodup) (hp : p ∈ d) : dlookup d p.1 = some p.2 := by
  induction d with
  | nil => simp at hp
  | cons q d ih =>
    simp only [dkeys, List.map_cons, List.nodup_cons] at hnd
    rcases List.mem_cons.mp hp with h | h
    · subst h
      rw [dlookup, if_pos rfl]
    · have hq : ¬ q.1 = p.1 := by
        intro hc
        exact hnd.1 (by rw [hc]; exact List.mem_map.mpr ⟨p, h, rfl⟩)
      rw [dlookup, if_neg hq]
      exact ih hnd.2 h

/-- The key list of a per-batch reconciled dict has no duplicates: both the
`dict(...)` comprehension and each conditional backfill insertion preserve
key-list nodup. -/
theorem extract_keys_batch_nodup {α : Type} (resp : Option (List (String × Option α)))
    (bs : List String) : (dkeys (extract_keys_batch resp bs)).Nodup := by
  cases resp with
  | none =>
    unfold extract_keys_batch
    exact dkeys_nodup_dupdate _ _ (by simp [dkeys])
  | some items =>
    unfold extract_keys_batch
    simp only
    have hgen : ∀ (bs : List String) (d : PyDict (Option α)), (dkeys d).Nodup →
        (dkeys (bs.foldl (fun d k => if dmem d k then d else dinsert d k none) d)).Nodup := by
      intro bs
      induction bs with
      | nil => intro d h; simpa using h
      | cons b bs ih =>
        intro d h
        simp only [List.foldl_cons]
        by_cases hb : dmem d b
        · rw [if_pos hb]; exact ih d h
        · rw [if_neg hb]; exact ih _ (dkeys_nodup_dinsert d b none h)
    exact hgen bs _ (dkeys_nodup_dupdate _ _ (by simp [dkeys]))

/-- Uniform-value lookup through a dict merge: if in every merged dict every
entry keyed `k` carries the same value `v`, and `(k, v)` actually occurs in
one of them, then the merged dict maps `k` to `v`. -/
theorem dlookup_pyMerge_uniform {β : Type} (ds : List (PyDict β)) (k : String) (v : β)
    (huni : ∀ d ∈ ds, ∀ p ∈ d, p.1 = k → p.2 = v)
    (hex : ∃ d ∈ ds, (k, v) ∈ d) :
    dlookup (pyMerge ds) k = some v := by
  have gen : ∀ (ds : List (PyDict β)) (acc : PyDict β),
      (∀ d ∈ ds, ∀ p ∈ d, p.1 = k → p.2 = v) →
      ((∃ d ∈ ds, (k, v) ∈ d) ∨ dlookup acc k = some v) →
      dlookup (ds.foldl (fun acc d => dupdate acc d) acc) k = some v := by
    intro ds
    induction ds with
    | nil =>
      intro acc _ hsrc
      rcases hsrc with ⟨d, hd, _⟩ | h
      · simp at hd
      · simpa using h
    | cons d ds ih =>
      intro acc huni hsrc
      simp only [List.foldl_cons]
      refine ih _ (fun q hq => huni q (List.mem_cons_of_mem d hq)) ?_
      have hu1 : ∀ p ∈ d, p.1 = k → p.2 = v := huni d (List.mem_cons_self d ds)
      rcases hsrc with ⟨e, he, hmem⟩ | h
      · rcases List.mem_cons.mp he with heq | he'
        · rw [heq] at hmem
          exact Or.inr (dlookup_dupdate_uniform d acc k v hu1 (Or.inl hmem))
        · exact Or.inl ⟨e, he', hmem⟩
      · exact Or.inr (dlookup_dupdate_uniform d acc k v hu1 (Or.inr h))
  exact gen ds [] huni (Or.inl hex)

/-- A requested key that no successful response names: the per-batch dict
maps it to an explicit `None` when it belongs to the batch, and omits it
otherwise — whether the batch failed or merely left it out. -/
theorem extract_keys_batch_noresp_lookup {α : Type}
    (resp : Option (List (String × Option α))) (bs : List String) (k : String)
    (hnores : ∀ items, resp = some items → k ∉ items.map Prod.fst) :
    dlookup (extract_keys_batch resp bs) k = if k ∈ bs then some none else none := by
  cases resp with
  | none => exact extract_keys_batch_none_lookup bs k
  | some items =>
    have hkm : k ∉ items.map Prod.fst := hnores items rfl
    by_cases hkb : k ∈ bs
    · rw [if_pos hkb]
      exact extract_keys_batch_some_missing items bs k hkb hkm
    · rw [if_neg hkb]
      refine dlookup_eq_none_of_not_dmem _ _ ?_
      intro hc
      rcases (extract_keys_batch_some_mem items bs k).mp hc with h | h
      · exact hkm h
      · exact hkb h

/-! ## Claim C2 -/

/-- **C2 counterexample.**  The claim says the map returned by
`extract_keys` has a key set equal to the set of requested field names
exactly.  But a successful batch outcome is not filtered to the requested
names: requesting only `"a"` while the model's structured response carries
an item named `"b"` yields a merged map with key set `{"b", "a"}`, a strict
superset of `{"a"}`. -/
theorem C2_counterexample :
    extract_keys (fun _ _ _ => some [("b", some 0)]) ["a"] ([] : List Unit) 20 =
      .ok [("b", some (0 : Nat)), ("a", none)] ∧
    "b" ∉ (["a"] : List String) :=
  ⟨by rfl, by decide⟩

/-- **C2 amended.**  For every batch size `B ≥ 1` the merged map always
contains every originally requested field name (its key list has no
duplicates, so each exactly once), and a requested field with no extraction
outcome — no successful batch response anywhere names it — is present with
an explicit null value rather than absent; the key set equals the requested
set exactly *provided* every successful batch response only names requested
fields (otherwise it can strictly exceed it, see the counterexample). -/
theorem C2_merge_key_cover {α σ : Type}
    (oracle : Nat → List String → List σ → Option (List (String × Option α)))
    (key_names : List String) (pdf_data : List σ) (B : Int) (hB : 1 ≤ B) :
    ∃ m, extract_keys oracle key_names pdf_data B = .ok m ∧
      (dkeys m).Nodup ∧
      (∀ k ∈ key_names, dmem m k) ∧
      (∀ k ∈ key_names,
        (∀ j bs items, oracle j bs pdf_data = some items → k ∉ items.map Prod.fst) →
        dlookup m k = some none) ∧
      ((∀ j bs items, oracle j bs pdf_data = some items → ∀ p ∈ items, p.1 ∈ key_names) →
        ∀ x, dmem m x ↔ x ∈ key_names) := by
  cases hkn : key_names with
  | nil =>
    refine ⟨[], rfl, by simp [dkeys], fun k hk => absurd hk (List.not_mem_nil k),
      fun k hk _ => absurd hk (List.not_mem_nil k), ?_⟩
    intro _ x
    simp [dmem, dkeys]
  | cons y ys =>
    rw [← hkn]
    have hne : key_names ≠ [] := by rw [hkn]; exact List.cons_ne_nil y ys
    obtain ⟨batches, hbat, hbne, hok⟩ :=
      extract_keys_ok oracle key_names pdf_data B hB hne
    have hflat := extractBatches_flatten key_names B hB batches hbat
    have hcover : ∀ k ∈ key_names, ∃ j, ∃ h : j < batches.length, k ∈ batches[j] := by
      intro k hk
      rw [← hflat] at hk
      rcases List.mem_flatten.mp hk with ⟨b, hb, hkb⟩
      rcases List.mem_iff_getElem.mp hb with ⟨j, hj, hbj⟩
      exact ⟨j, hj, hbj ▸ hkb⟩
    refine ⟨_, hok, dkeys_nodup_pyMerge _, ?_, ?_, ?_⟩
    · intro k hk
      rcases hcover k hk with ⟨j, hj, hkb⟩
      rw [dmem_merged_iff]
      exact ⟨j, hj, extract_keys_batch_mem_of_req _ _ _ hkb⟩
    · intro k hk hnores
      refine dlookup_pyMerge_uniform _ k none ?_ ?_
      · intro d hd p hp hpk
        rcases (mem_results_iff oracle pdf_data batches d).mp hd with ⟨j, hj, hdj⟩
        have hlk : dlookup d k = some p.2 := by
          rw [← hpk]
          exact dlookup_of_mem_nodup d p (by rw [hdj]; exact extract_keys_batch_nodup _ _) hp
        rw [hdj, extract_keys_batch_noresp_lookup (oracle j batches[j] pdf_data)
          batches[j] k (fun items hit => hnores j batches[j] items hit)] at hlk
        by_cases hkb : k ∈ batches[j]
        · rw [if_pos hkb] at hlk
          exact (Option.some.inj hlk).symm
        · rw [if_neg hkb] at hlk
          simp at hlk
      · rcases hcover k hk with ⟨j, hj, hkb⟩
        refine ⟨extract_keys_batch (oracle j batches[j] pdf_data) batches[j],
          (mem_results_iff oracle pdf_data batches _).mpr ⟨j, hj, rfl⟩, ?_⟩
        refine dlookup_mem _ k none ?_
        rw [extract_keys_batch_noresp_lookup (oracle j batches[j] pdf_data) batches[j] k
          (fun items hit => hnores j batches[j] items hit), if_pos hkb]
    · intro hresp x
      rw [dmem_merged_iff]
      constructor
      · rintro ⟨j, hj, hx⟩
        rcases extract_keys_batch_keys_sub _ _ _ hx with h | ⟨items, hitems, hxi⟩
        · rw [← hflat]
          exact List.mem_flatten.mpr ⟨batches[j], List.getElem_mem hj, h⟩
        · rcases List.mem_map.mp hxi with ⟨p, hp, hpx⟩
          exact hpx ▸ hresp j batches[j] items hitems p hp
      · intro hx
        rcases hcover x hx with ⟨j, hj, hxb⟩
        exact ⟨j, hj, extract_keys_batch_mem_of_req _ _ _ hxb⟩

/-- Witness for C2 (amended): two requested fields in two batches of one,
both model calls fail — the merged map has exactly the requested keys, no
duplicates, and every field (having no extraction outcome) carries an
explicit null. -/
theorem C2_merge_key_cover_witness :
    ∃ m, extract_keys (fun _ _ _ => (none : Option (List (String × Option Nat))))
        ["a", "b"] ([] : List Unit) 1 = .ok m ∧
      (dkeys m).Nodup ∧
      (∀ k ∈ (["a", "b"] : List String), dmem m k) ∧
      (∀ k ∈ (["a", "b"] : List String),
        (∀ j bs items,
          (fun (_ : Nat) (_ : List String) (_ : List Unit) =>
            (none : Option (List (String × Option Nat)))) j bs [] = some items →
          k ∉ items.map Prod.fst) →
        dlookup m k = some none) ∧
      ((∀ j bs items,
          (fun (_ : Nat) (_ : List String) (_ : List Unit) =>
            (none : Option (List (String × Option Nat)))) j bs [] = some items →
          ∀ p ∈ items, p.1 ∈ (["a", "b"] : List String)) →
        ∀ x, dmem m x ↔ x ∈ (["a", "b"] : List String)) :=
  C2_merge_key_cover _ ["a", "b"] [] 1 (by decide)

/-! ## Claim C3 -/

/-- Oracle for the concrete 7-names / batch-size-3 scenario: batches 0 and 2
succeed, batch 1's model call raises. -/
def oracle73 : Nat → List String → List Unit → Option (List (String × Option Nat)) :=
  fun j _ _ =>
    if j = 0 then some [("k1", some 1), ("k2", some 2), ("k3", some 3)]
    else if j = 2 then some [("k7", some 7)] else none

/-- The batches the planner produces for the 7-names / batch-size-3 scenario. -/
def batches73 : List (List String) :=
  [["k1", "k2", "k3"], ["k4", "k5", "k6"], ["k7"]]

/-- The merged map of the 7-names / batch-size-3 scenario with batch 1 failing. -/
def merged73 : PyDict (Option Nat) :=
  [("k1", some 1), ("k2", some 2), ("k3", some 3),
   ("k4", none), ("k5", none), ("k6", none), ("k7", some 7)]

/-- **C3.**  (1) If a batch's model call raises, that batch's outcome maps
every field name of the batch to null and nothing else (no field of the
batch gets a non-null value, no foreign field appears).  (2) For any valid
batch size the enclosing `extract_keys` still returns (does not raise) a
map containing every requested field.  (3) A failed batch does not affect
fields outside it: for any key outside the failed batch, the merged lookup
equals the merged lookup over the other batches' outcomes alone.  (4) In
particular, for 7 field names with batch size 3 and only the second batch's
call raising, the merged result has all 7 keys, with exactly the second
batch's 3 keys null and the other 4 carrying their batches' results. -/
theorem C3_batch_failure_isolation :
    (∀ (α : Type) (bs : List String) (k : String),
        dlookup (extract_keys_batch (α := α) none bs) k =
          if k ∈ bs then some none else none) ∧
    (∀ (α σ : Type)
        (oracle : Nat → List String → List σ → Option (List (String × Option α)))
        (key_names : List String) (pdf_data : List σ) (B : Int), 1 ≤ B →
        ∃ m, extract_keys oracle key_names pdf_data B = .ok m ∧
          ∀ k ∈ key_names, dmem m k) ∧
    (∀ (α σ : Type)
        (oracle : Nat → List String → List σ → Option (List (String × Option α)))
        (key_names : List String) (pdf_data : List σ) (B : Int)
        (m : PyDict (Option α)) (batches : List (List String)) (j : Nat),
        extract_keys oracle key_names pdf_data B = .ok m →
        extractBatches key_names B = some batches →
        ∀ hj : j < batches.length,
        oracle j batches[j] pdf_data = none →
        ∀ k, k ∉ batches[j] →
          dlookup m k = dlookup (pyMerge ((batches.enum.map
            (fun p => extract_keys_batch (oracle p.1 p.2 pdf_data) p.2)).eraseIdx j)) k) ∧
    extract_keys oracle73 ["k1", "k2", "k3", "k4", "k5", "k6", "k7"] [] 3 =
      .ok merged73 := by
  refine ⟨?_, ?_, ?_, ?_⟩
  · intro α bs k
    exact extract_keys_batch_none_lookup bs k
  · intro α σ oracle key_names pdf_data B hB
    cases hkn : key_names with
    | nil => exact ⟨[], rfl, by simp⟩
    | cons y ys =>
      rw [← hkn]
      have hne : key_names ≠ [] := by rw [hkn]; exact List.cons_ne_nil y ys
      obtain ⟨batches, hbat, hbne, hok⟩ :=
        extract_keys_ok oracle key_names pdf_data B hB hne
      have hflat := extractBatches_flatten key_names B hB batches hbat
      refine ⟨_, hok, ?_⟩
      intro k hk
      rw [dmem_merged_iff]
      rw [← hflat] at hk
      rcases List.mem_flatten.mp hk with ⟨b, hb, hkb⟩
      rcases List.mem_iff_getElem.mp hb with ⟨j, hj, hbj⟩
      exact ⟨j, hj, extract_keys_batch_mem_of_req _ _ _ (hbj ▸ hkb)⟩
  · intro α σ oracle key_names pdf_data B m batches j hok hbat hj hor k hk
    rcases extract_keys_ok_inv oracle key_names pdf_data B m hok with ⟨hkn, hm⟩ | ⟨bs, hbs, hbne, hm⟩
    · subst hkn
      have := extractBatches_nil B batches hbat
      subst this
      exact absurd hj (by simp)
    · rw [hbs] at hbat
      replace hbat := Option.some.inj hbat
      subst hbat
      subst hm
      refine dlookup_pyMerge_eraseIdx _ j
        (extract_keys_batch (α := α) none bs[j]) k ?_ ?_
      · have hjlen : j < (bs.enum.map
            (fun p => extract_keys_batch (oracle p.1 p.2 pdf_data) p.2)).length := by
          simpa using hj
        rw [List.get?_eq_getElem?, List.getElem?_eq_getElem hjlen]
        congr 1
        rw [List.getElem_map, List.getElem_enum, hor]
      · intro hc
        rcases extract_keys_batch_keys_sub _ _ _ hc with h | ⟨items, hitems, _⟩
        · exact hk h
        · exact nomatch hitems
  · rfl

/-- Witness for C3: the 7-names / batch-size-3 scenario instantiating parts
(1), (2) and (3) at concrete inputs. -/
theorem C3_batch_failure_isolation_witness :
    dlookup (extract_keys_batch (α := Nat) none ["x", "y"]) "x" =
      (if "x" ∈ (["x", "y"] : List String) then some none else none) ∧
    (∃ m, extract_keys oracle73 ["k1", "k2", "k3", "k4", "k5", "k6", "k7"]
        ([] : List Unit) 3 = .ok m ∧
      ∀ k ∈ (["k1", "k2", "k3", "k4", "k5", "k6", "k7"] : List String), dmem m k) ∧
    dlookup merged73 "k1" = dlookup (pyMerge ((batches73.enum.map
      (fun p => extract_keys_batch (oracle73 p.1 p.2 ([] : List Unit)) p.2)).eraseIdx 1)) "k1" :=
  ⟨C3_batch_failure_isolation.1 Nat ["x", "y"] "x",
   C3_batch_failure_isolation.2.1 Nat Unit oracle73
     ["k1", "k2", "k3", "k4", "k5", "k6", "k7"] [] 3 (by decide),
   C3_batch_failure_isolation.2.2.1 Nat Unit oracle73
     ["k1", "k2", "k3", "k4", "k5", "k6", "k7"] [] 3 merged73 batches73 1
     (by rfl) (by rfl) (by decide) (by rfl) "k1" (by decide)⟩

/-! ## Claim C4 -/

/-- **C4.**  After a successful batch call, every field name requested in
the batch that does not appear among the structured response's items is
mapped to an explicit null in the batch's outcome; and, more generally, no
requested field of a successful batch is missing from the outcome map. -/
theorem C4_missing_response_fields_forced_null :
    (∀ (α : Type) (items : List (String × Option α)) (bs : List String) (k : String),
        k ∈ bs → k ∉ items.map Prod.fst →
        dlookup (extract_keys_batch (some items) bs) k = some none) ∧
    (∀ (α : Type) (items : List (String × Option α)) (bs : List String) (k : String),
        k ∈ bs → dmem (extract_keys_batch (some items) bs) k) :=
  ⟨fun _ items bs k hk hm => extract_keys_batch_some_missing items bs k hk hm,
   fun _ items bs k hk => extract_keys_batch_mem_of_req (some items) bs k hk⟩

/-- Witness for C4: batch `["a", "b"]`, response only mentions `"b"` —
`"a"` is forced to an explicit null and is present. -/
theorem C4_missing_response_fields_forced_null_witness :
    dlookup (extract_keys_batch (some [("b", some (5 : Nat))]) ["a", "b"]) "a" = some none ∧
    dmem (extract_keys_batch (some [("b", some (5 : Nat))]) ["a", "b"]) "a" :=
  ⟨C4_missing_response_fields_forced_null.1 Nat [("b", some 5)] ["a", "b"] "a"
     (by decide) (by decide),
   C4_missing_response_fields_forced_null.2 Nat [("b", some 5)] ["a", "b"] "a"
     (by decide)⟩

/-! ## Claim C9 -/

/-- **C9 counterexample.**  The claim says that calling the orchestration
entry point with an empty document set while field names are requested is a
configuration error rejected immediately at the call boundary.  Neither
`extract_keys` nor the `/extract-keys` router validates the document set:
`pdf_data` is never inspected, and with `pdf_data = []` and a requested
field the call proceeds to the model and returns a normal result map
instead of being rejected. -/
theorem C9_counterexample :
    extract_keys (fun _ _ _ => some [("a", some 5)]) ["a"] ([] : List Unit) 20 =
      .ok [("a", some (5 : Nat))] := by
  rfl

/-- **C9 amended.**  Empty `key_names` short-circuits to an empty result
map with no model call (the result is `ok []` for every oracle, before any
batch is planned).  `batch_size ≤ 0` with nonempty `key_names` makes the
call raise, but as an incidental exception deep inside `extract_keys`
rather than a boundary validation: `batch_size = 0` raises `ValueError`
from `range(0, N, 0)`, and a negative `batch_size` plans zero batches and
then raises `ZeroDivisionError` at the completion-log division.  An empty
document set with requested field names is not rejected at all: for any
valid batch size the call returns a result map. -/
theorem C9_edge_cases :
    (∀ (α σ : Type)
        (oracle : Nat → List String → List σ → Option (List (String × Option α)))
        (pdf_data : List σ) (B : Int),
        extract_keys oracle [] pdf_data B = .ok []) ∧
    (∀ (α σ : Type)
        (oracle : Nat → List String → List σ → Option (List (String × Option α)))
        (key_names : List String) (pdf_data : List σ),
        key_names ≠ [] →
        extract_keys oracle key_names pdf_data 0 = .error .valueError) ∧
    (∀ (α σ : Type)
        (oracle : Nat → List String → List σ → Option (List (String × Option α)))
        (key_names : List String) (pdf_data : List σ) (B : Int),
        key_names ≠ [] → B < 0 →
        extract_keys oracle key_names pdf_data B = .error .zeroDivisionError) ∧
    (∀ (α : Type)
        (oracle : Nat → List String → List Unit → Option (List (String × Option α)))
        (key_names : List String) (B : Int), 1 ≤ B →
        ∃ m, extract_keys oracle key_names ([] : List Unit) B = .ok m) := by
  refine ⟨?_, ?_, ?_, ?_⟩
  · intro α σ oracle pdf_data B
    rfl
  · intro α σ oracle key_names pdf_data hne
    unfold extract_keys
    rw [if_neg (by simpa [List.isEmpty_iff] using hne)]
    have hz : extractBatches key_names 0 = none := by
      unfold extractBatches pyRangeStep
      simp
    rw [hz]
  · intro α σ oracle key_names pdf_data B hne hB
    unfold extract_keys
    rw [if_neg (by simpa [List.isEmpty_iff] using hne)]
    have hz : extractBatches key_names B = some [] := by
      unfold extractBatches pyRangeStep
      rw [if_neg (by omega), if_pos hB]
      rfl
    rw [hz]
    rfl
  · intro α oracle key_names B hB
    cases hkn : key_names with
    | nil => exact ⟨[], rfl⟩
    | cons y ys =>
      obtain ⟨batches, _, _, hok⟩ :=
        extract_keys_ok oracle (y :: ys) [] B hB (List.cons_ne_nil y ys)
      exact ⟨_, hok⟩

/-- Witness for C9 (amended): concrete instances of all four behaviors. -/
theorem C9_edge_cases_witness :
    extract_keys (fun _ _ _ => (none : Option (List (String × Option Nat)))) []
      ([] : List Unit) (-7) = .ok [] ∧
    extract_keys (fun _ _ _ => (none : Option (List (String × Option Nat)))) ["a"]
      ([] : List Unit) 0 = .error .valueError ∧
    extract_keys (fun _ _ _ => (none : Option (List (String × Option Nat)))) ["a"]
      ([] : List Unit) (-3) = .error .zeroDivisionError ∧
    (∃ m, extract_keys (fun _ _ _ => (none : Option (List (String × Option Nat)))) ["a"]
      ([] : List Unit) 4 = .ok m) :=
  ⟨C9_edge_cases.1 Nat Unit _ [] (-7),
   C9_edge_cases.2.1 Nat Unit _ ["a"] [] (by decide),
   C9_edge_cases.2.2.1 Nat Unit _ ["a"] [] (-3) (by decide) (by decide),
   C9_edge_cases.2.2.2 Nat _ ["a"] 4 (by decide)⟩

/-! ## Claim C10 -/

/-- **C10.**  A successful batch call's outcome map is not filtered to the
requested batch: its key set is exactly the union of the response items'
`key_name`s and the requested batch names; every key of every batch outcome
propagates into the merged map returned by `extract_keys`, so an extraneous
response name never requested in the batch ends up in the merged map, whose
key set then strictly exceeds the originally requested set (concrete
instance in the last conjunct). -/
theorem C10_unfiltered_response_keys :
    (∀ (α : Type) (items : List (String × Option α)) (bs : List String) (x : String),
        dmem (extract_keys_batch (some items) bs) x ↔
          x ∈ items.map Prod.fst ∨ x ∈ bs) ∧
    (∀ (α σ : Type)
        (oracle : Nat → List String → List σ → Option (List (String × Option α)))
        (key_names : List String) (pdf_data : List σ) (B : Int)
        (m : PyDict (Option α)) (batches : List (List String)) (x : String),
        extract_keys oracle key_names pdf_data B = .ok m →
        extractBatches key_names B = some batches →
        (dmem m x ↔ ∃ j, ∃ h : j < batches.length,
          dmem (extract_keys_batch (oracle j batches[j] pdf_data) batches[j]) x)) ∧
    (extract_keys (fun _ _ _ => some [("extra", some 1), ("a", some 2)]) ["a"]
        ([] : List Unit) 20 = .ok [("extra", some (1 : Nat)), ("a", some 2)] ∧
      "extra" ∉ (["a"] : List String)) := by
  refine ⟨?_, ?_, by rfl, by decide⟩
  · intro α items bs x
    exact extract_keys_batch_some_mem items bs x
  · intro α σ oracle key_names pdf_data B m batches x hok hbat
    rcases extract_keys_ok_inv oracle key_names pdf_data B m hok with
      ⟨hkn, hm⟩ | ⟨bs, hbs, hbne, hm⟩
    · subst hkn
      have hb0 := extractBatches_nil B batches hbat
      subst hb0
      subst hm
      simp [dmem, dkeys]
    · rw [hbs] at hbat
      replace hbat := Option.some.inj hbat
      subst hbat
      subst hm
      exact dmem_merged_iff oracle pdf_data bs x

/-- Witness for C10: batch `["a"]`, response carrying the extraneous
`"extra"` — it appears in the batch outcome and in the merged map. -/
theorem C10_unfiltered_response_keys_witness :
    (dmem (extract_keys_batch (some [("extra", some (1 : Nat))]) ["a"]) "extra" ↔
      "extra" ∈ ([("extra", some (1 : Nat))].map Prod.fst) ∨
        "extra" ∈ (["a"] : List String)) ∧
    (dmem [("extra", some (1 : Nat)), ("a", some 2)] "extra" ↔
      ∃ j, ∃ h : j < ([["a"]] : List (List String)).length,
        dmem (extract_keys_batch
          ((fun _ _ _ => some [("extra", some (1 : Nat)), ("a", some 2)]) j
            (([["a"]] : List (List String))[j]) ([] : List Unit))
          (([["a"]] : List (List String))[j])) "extra") :=
  ⟨C10_unfiltered_response_keys.1 Nat [("extra", some 1)] ["a"] "extra",
   C10_unfiltered_response_keys.2.1 Nat Unit
     (fun _ _ _ => some [("extra", some 1), ("a", some 2)]) ["a"] [] 20
     [("extra", some 1), ("a", some 2)] [["a"]] "extra" (by rfl) (by rfl)⟩

/-! ## Structural PDF extraction (`backend/services/process_pdfs.py`)

### Identifier strings

Python renders `f"{page_number}_{line_index}"` and
`f"{page_number}_t{table_index}_r{row_index}_c{col_index}"` with decimal
digits (`chr(48+d)`). -/

/-- The decimal digit character `chr(48 + d)`. -/
def digitCh (d : Nat) : Char := Char.ofNat (48 + d)

/-- Decimal digit recursion with explicit fuel (so that it reduces by
iota; the fuel `n + 1` always suffices since `n / 10 < n`). -/
def natCharsAux : Nat → Nat → List Char
  | 0, _ => []
  | fuel + 1, n =>
    if n < 10 then [digitCh n] else natCharsAux fuel (n / 10) ++ [digitCh (n % 10)]

/-- Decimal digit characters of `n`, most significant first — Python
`str(n)` for natural `n`. -/
def natChars (n : Nat) : List Char := natCharsAux (n + 1) n

/-- `str(n)` as a string. -/
def natStr (n : Nat) : String := ⟨natChars n⟩

theorem digitCh_toNat (d : Nat) (hd : d < 10) : (digitCh d).toNat = 48 + d := by
  interval_cases d <;> decide

theorem natCharsAux_congr :
    ∀ (f1 f2 n : Nat), n < f1 → n < f2 → natCharsAux f1 n = natCharsAux f2 n := by
  intro f1
  induction f1 with
  | zero => intro f2 n h1 _; omega
  | succ f1 ih =>
    intro f2 n h1 h2
    cases f2 with
    | zero => omega
    | succ f2 =>
      show (if n < 10 then _ else _) = (if n < 10 then _ else _)
      by_cases hn : n < 10
      · rw [if_pos hn, if_pos hn]
      · rw [if_neg hn, if_neg hn]
        have hd : n / 10 < n := Nat.div_lt_self (by omega) (by omega)
        rw [ih f2 (n / 10) (by omega) (by omega)]

theorem natChars_lt (n : Nat) (h : n < 10) : natChars n = [digitCh n] := by
  show (if n < 10 then _ else _) = _
  rw [if_pos h]

theorem natChars_ge (n : Nat) (h : ¬ n < 10) :
    natChars n = natChars (n / 10) ++ [digitCh (n % 10)] := by
  show (if n < 10 then _ else _) = _
  rw [if_neg h]
  have hd : n / 10 < n := Nat.div_lt_self (by omega) (by omega)
  rw [natCharsAux_congr n (n / 10 + 1) (n / 10) (by omega) (by omega)]
  rfl

theorem natChars_toNat_bound (n : Nat) :
    ∀ c ∈ natChars n, 48 ≤ c.toNat ∧ c.toNat ≤ 57 := by
  induction n using Nat.strong_induction_on with
  | _ n ih =>
    by_cases h : n < 10
    · rw [natChars_lt n h]
      intro c hc
      simp only [List.mem_singleton] at hc
      subst hc
      rw [digitCh_toNat n h]
      omega
    · rw [natChars_ge n h]
      intro c hc
      rcases List.mem_append.mp hc with hc | hc
      · exact ih (n / 10) (Nat.div_lt_self (by omega) (by omega)) c hc
      · simp only [List.mem_singleton] at hc
        subst hc
        rw [digitCh_toNat _ (Nat.mod_lt n (by omega))]
        omega

theorem natChars_ne_nil (n : Nat) : natChars n ≠ [] := by
  by_cases h : n < 10
  · rw [natChars_lt n h]; simp
  · rw [natChars_ge n h]; simp

theorem concat_inj_chars (xs ys : List Char) (x y : Char)
    (h : xs ++ [x] = ys ++ [y]) : xs = ys ∧ x = y := by
  have h1 := congrArg List.reverse h
  simp only [List.reverse_append, List.reverse_singleton, List.singleton_append] at h1
  obtain ⟨hxy, hrev⟩ := List.cons.inj h1
  exact ⟨by simpa using congrArg List.reverse hrev, hxy⟩

theorem natChars_inj : ∀ (a b : Nat), natChars a = natChars b → a = b := by
  intro a
  induction a using Nat.strong_induction_on with
  | _ a ih =>
    intro b h
    by_cases ha : a < 10 <;> by_cases hb : b < 10
    · rw [natChars_lt a ha, natChars_lt b hb] at h
      simp only [List.cons.injEq, and_true] at h
      have h2 : (digitCh a).toNat = (digitCh b).toNat := by rw [h]
      rw [digitCh_toNat a ha, digitCh_toNat b hb] at h2
      omega
    · rw [natChars_lt a ha, natChars_ge b hb] at h
      exfalso
      have hlen := congrArg List.length h
      have hne : 1 ≤ (natChars (b / 10)).length := List.length_pos.mpr (natChars_ne_nil _)
      simp only [List.length_singleton, List.length_append] at hlen
      omega
    · rw [natChars_ge a ha, natChars_lt b hb] at h
      exfalso
      have hlen := congrArg List.length h
      have hne : 1 ≤ (natChars (a / 10)).length := List.length_pos.mpr (natChars_ne_nil _)
      simp only [List.length_singleton, List.length_append] at hlen
      omega
    · rw [natChars_ge a ha, natChars_ge b hb] at h
      obtain ⟨h1, h2⟩ := concat_inj_chars _ _ _ _ h
      have hmod : a % 10 = b % 10 := by
        have h3 : (digitCh (a % 10)).toNat = (digitCh (b % 10)).toNat := by rw [h2]
        rw [digitCh_toNat _ (Nat.mod_lt a (by omega)),
          digitCh_toNat _ (Nat.mod_lt b (by omega))] at h3
        omega
      have hdiv : a / 10 = b / 10 :=
        ih (a / 10) (Nat.div_lt_self (by omega) (by omega)) (b / 10) h1
      omega

/-- Character content of `f"{page}_{idx}"`. -/
def lineIdChars (page idx : Nat) : List Char :=
  natChars page ++ '_' :: natChars idx

/-- Character content of `f"{page}_t{t}_r{r}_c{c}"`. -/
def cellIdChars (page t r c : Nat) : List Char :=
  natChars page ++ '_' :: 't' ::
    (natChars t ++ '_' :: 'r' :: (natChars r ++ '_' :: 'c' :: natChars c))

/-- `line_id = f"{page_number}_{line_index}"`. -/
def lineId (page idx : Nat) : String := ⟨lineIdChars page idx⟩

/-- `cell_id = f"{page_number}_t{table_index}_r{row_index}_c{col_index}"`. -/
def cellId (page t r c : Nat) : String := ⟨cellIdChars page t r c⟩

theorem und_not_mem_natChars (n : Nat) : '_' ∉ natChars n := by
  intro hc
  have hb := natChars_toNat_bound n _ hc
  revert hb
  decide

/-- appending after a separator that occurs in neither prefix is injective. -/
theorem append_sep_inj (sep : Char) :
    ∀ (a c s t : List Char), sep ∉ a → sep ∉ c →
      a ++ sep :: s = c ++ sep :: t → a = c ∧ s = t := by
  intro a
  induction a with
  | nil =>
    intro c s t _ hc h
    cases c with
    | nil => simpa using h
    | cons x xs =>
      simp only [List.nil_append, List.cons_append, List.cons.injEq] at h
      exact absurd (h.1 ▸ List.mem_cons_self x xs) hc
  | cons y ys ih =>
    intro c s t ha hc h
    cases c with
    | nil =>
      simp only [List.nil_append, List.cons_append, List.cons.injEq] at h
      exact absurd (h.1 ▸ List.mem_cons_self y ys) ha
    | cons x xs =>
      simp only [List.cons_append, List.cons.injEq] at h
      obtain ⟨h1, h2⟩ := h
      have hr := ih xs s t (fun hm => ha (List.mem_cons_of_mem _ hm))
        (fun hm => hc (List.mem_cons_of_mem _ hm)) h2
      exact ⟨by rw [h1, hr.1], hr.2⟩

theorem lineId_ne_cellId (p i pc t r c : Nat) : lineId p i ≠ cellId pc t r c := by
  intro h
  have hch : lineIdChars p i = cellIdChars pc t r c := congrArg String.data h
  unfold lineIdChars cellIdChars at hch
  obtain ⟨_, h2⟩ := append_sep_inj '_' _ _ _ _
    (und_not_mem_natChars p) (und_not_mem_natChars pc) hch
  have hmem : 't' ∈ natChars i := h2 ▸ List.mem_cons_self 't' _
  have hb := natChars_toNat_bound i 't' hmem
  revert hb
  decide

theorem cellId_inj (p t r c pc tc rc cc : Nat)
    (h : cellId p t r c = cellId pc tc rc cc) :
    p = pc ∧ t = tc ∧ r = rc ∧ c = cc := by
  have hch : cellIdChars p t r c = cellIdChars pc tc rc cc := congrArg String.data h
  unfold cellIdChars at hch
  obtain ⟨h1, h2⟩ := append_sep_inj '_' _ _ _ _
    (und_not_mem_natChars p) (und_not_mem_natChars pc) hch
  have h2' := (List.cons.inj h2).2
  obtain ⟨h3, h4⟩ := append_sep_inj '_' _ _ _ _
    (und_not_mem_natChars t) (und_not_mem_natChars tc) h2'
  have h4' := (List.cons.inj h4).2
  obtain ⟨h5, h6⟩ := append_sep_inj '_' _ _ _ _
    (und_not_mem_natChars r) (und_not_mem_natChars rc) h4'
  have h6' := (List.cons.inj h6).2
  exact ⟨natChars_inj _ _ h1, natChars_inj _ _ h3,
    natChars_inj _ _ h5, natChars_inj _ _ h6'⟩

/-! ### Page data model -/

/-- A bounding-box 4-tuple `(x0, top, x1, bottom)` of page coordinates. -/
structure BBox4 : Type where
  x0 : ℚ
  top : ℚ
  x1 : ℚ
  bottom : ℚ
deriving DecidableEq

/-- A dict produced by `page.extract_text_lines()`: the `"text"` key and
the four coordinate keys may each be absent (`none`) or present; a present
coordinate may itself be Python `None` (`some none`). -/
structure TextLine : Type where
  text : Option String
  x0 : Option (Option ℚ)
  top : Option (Option ℚ)
  x1 : Option (Option ℚ)
  bottom : Option (Option ℚ)
deriving DecidableEq

/-- A `pdfplumber` table row: only its bbox is consumed. -/
structure RawRow : Type where
  bbox : BBox4
deriving DecidableEq

instance {ε α : Type} [DecidableEq ε] [DecidableEq α] : DecidableEq (Except ε α) := fun a b =>
  match a, b with
  | .error e, .error f =>
      decidable_of_iff (e = f) ⟨fun h => by rw [h], fun h => by cases h; rfl⟩
  | .ok x, .ok y =>
      decidable_of_iff (x = y) ⟨fun h => by rw [h], fun h => by cases h; rfl⟩
  | .error _, .ok _ => isFalse (fun h => by cases h)
  | .ok _, .error _ => isFalse (fun h => by cases h)

/-- A `pdfplumber` table: bbox, rows, and the outcome of `table.extract()`
(each row a list of cell texts, a cell possibly `None`); `Except.error`
models the library call raising. -/
structure RawTable : Type where
  bbox : BBox4
  rows : List RawRow
  extract : Except Unit (List (List (Option String)))
deriving DecidableEq

/-- A `pdfplumber` page: the outcomes of `page.find_tables()` and
`page.extract_text_lines(...)`; `Except.error` models the call raising. -/
structure RawPage : Type where
  find_tables : Except Unit (List RawTable)
  extract_text_lines : Except Unit (List TextLine)
deriving DecidableEq

/-- `line.get(key, 0)`: a missing coordinate key defaults to the number `0`;
a present key returns its stored value (which may be Python `None`). -/
def getCoord (c : Option (Option ℚ)) : Option ℚ := c.getD (some 0)

/-- `is_line_in_any_table` (lines 14-38): compute the line's center from the
`.get(..., 0)` coordinates; if any of the four fetched values is `None`,
return `False`; otherwise return whether the center lies in the closed
rectangle of any table's bbox. -/
def is_line_in_any_table (line : TextLine) (tables : List RawTable) : Bool :=
  match getCoord line.x0, getCoord line.top, getCoord line.x1, getCoord line.bottom with
  | some lx0, some ltop, some lx1, some lbottom =>
      tables.any (fun table =>
        decide ((lx0 + lx1) / 2 ≥ table.bbox.x0) &&
        decide ((lx0 + lx1) / 2 ≤ table.bbox.x1) &&
        decide ((ltop + lbottom) / 2 ≥ table.bbox.top) &&
        decide ((ltop + lbottom) / 2 ≤ table.bbox.bottom))
  | _, _, _, _ => false

/-! ### Formatted text parts

`formatted_parts` is embedded structurally, one constructor per
`formatted_parts.append(...)` in the source: `plain` for banners, labels
and newlines (no identifier markers), `lineMarker id text` for
`f"[line_id: {id}] {text}\n"`, and `cellRow cells` for the row string
`" | ".join("[cell_id: {id}] {text}" for each cell)`.  The flat
`formatted_text` string is the concatenation of the parts' renderings; the
markers appearing in it are exactly the identifiers carried by the
`lineMarker`/`cellRow` parts. -/
inductive TextPart : Type
  | plain (s : String)
  | lineMarker (id : String) (text : String)
  | cellRow (cells : List (String × String))
deriving DecidableEq

/-- The identifier markers carried by one part. -/
def partIds : TextPart → List String
  | .plain _ => []
  | .lineMarker i _ => [i]
  | .cellRow cells => cells.map Prod.fst

/-- All identifier markers appearing in a parts list, in order. -/
def markerIds (parts : List TextPart) : List String :=
  (parts.map partIds).flatten

/-- `"=" * 80`. -/
def eqRule : String := ⟨List.replicate 80 '='⟩

/-- `"-" * 80`. -/
def dashRule : String := ⟨List.replicate 80 '-'⟩

/-- `"#" * 80`. -/
def hashRule : String := ⟨List.replicate 80 '#'⟩

/-- `f"\n{'=' * 80}\nPAGE {page_number}\n{'=' * 80}\n"`. -/
def pageBanner (pn : Nat) : TextPart :=
  .plain ("\n" ++ eqRule ++ "\nPAGE " ++ natStr pn ++ "\n" ++ eqRule ++ "\n")

/-- The `TEXT CONTENT (excluding tables)` banner. -/
def textBanner : TextPart :=
  .plain ("\n" ++ dashRule ++ "\nTEXT CONTENT (excluding tables)\n" ++ dashRule ++ "\n\n")

/-- The `TABLES` banner. -/
def tablesBanner : TextPart :=
  .plain ("\n" ++ dashRule ++ "\nTABLES\n" ++ dashRule ++ "\n\n")

/-- `f"Table {table_index + 1} on Page {page_number}:\n\n"`. -/
def tableLabel (ti pn : Nat) : TextPart :=
  .plain ("Table " ++ natStr (ti + 1) ++ " on Page " ++ natStr pn ++ ":\n\n")

/-- The bbox list stored for a kept line:
`[line.get("x0", 0), line.get("top", 0), line.get("x1", 0), line.get("bottom", 0)]`. -/
def lineBbox (line : TextLine) : List (Option ℚ) :=
  [getCoord line.x0, getCoord line.top, getCoord line.x1, getCoord line.bottom]

/-- `list(row_bbox)` for a row's bbox tuple. -/
def bboxToList (b : BBox4) : List (Option ℚ) :=
  [some b.x0, some b.top, some b.x1, some b.bottom]

/-! ### Page processing -/

/-- One iteration of the text-lines loop of `process_single_page` (lines
67-79): a line inside a table is skipped; otherwise it gets the next
sequential `line_id`, a marker part, and a map entry binding the id to the
line's fetched coordinates. -/
def linePhaseStep (pn : Nat) (tables : List RawTable)
    (acc : List TextPart × PyDict (List (Option ℚ)) × Nat) (line : TextLine) :
    List TextPart × PyDict (List (Option ℚ)) × Nat :=
  if is_line_in_any_table line tables then acc
  else
    (acc.1 ++ [.lineMarker (lineId pn acc.2.2) (line.text.getD "")],
     dinsert acc.2.1 (lineId pn acc.2.2) (lineBbox line),
     acc.2.2 + 1)

/-- The text-lines loop, starting from empty parts, empty map, index 0. -/
def linePhase (pn : Nat) (tables : List RawTable) (text_lines : List TextLine) :
    List TextPart × PyDict (List (Option ℚ)) × Nat :=
  text_lines.foldl (linePhaseStep pn tables) ([], [], 0)

/-- The `(cell_id, cell_text)` pairs of one table row (inner loop, lines
103-112): `col_idx` enumerates the row's cell texts, `None` renders as `""`. -/
def rowCells (pn ti ri : Nat) (row_cells_text : List (Option String)) :
    List (String × String) :=
  row_cells_text.enum.map (fun p => (cellId pn ti ri p.1, p.2.getD ""))

/-- The map entries of one table row: every `cell_id` of the row is bound to
the *row's* bbox (lines 100, 108). -/
def rowEntries (pn ti ri : Nat) (row_cells_text : List (Option String)) (bb : BBox4) :
    List (String × List (Option ℚ)) :=
  (rowCells pn ti ri row_cells_text).map (fun cpair => (cpair.1, bboxToList bb))

/-- One iteration of the row loop (lines 95-115) over
`enumerate(zip(table_data, rows))`: append the row's joined cell markers and
a newline, and bind each of the row's cell ids to the row bbox. -/
def rowStep (pn ti : Nat) (a : List TextPart × PyDict (List (Option ℚ)))
    (p : Nat × (List (Option String) × RawRow)) :
    List TextPart × PyDict (List (Option ℚ)) :=
  (a.1 ++ [.cellRow (rowCells pn ti p.1 p.2.1), .plain "\n"],
   dupdate a.2 (rowEntries pn ti p.1 p.2.1 p.2.2.bbox))

/-- One iteration of the tables loop (lines 84-116): a table with no rows
contributes nothing; otherwise `table.extract()` runs (if it raises, the
whole page raises), then the `"Table N on Page P"` label, the rows, and a
trailing newline are appended. -/
def processOneTable (pn ti : Nat) (tbl : RawTable)
    (acc : List TextPart × PyDict (List (Option ℚ))) :
    Except Unit (List TextPart × PyDict (List (Option ℚ))) :=
  if tbl.rows.isEmpty then .ok acc
  else
    match tbl.extract with
    | .error e => .error e
    | .ok table_data =>
        .ok (((table_data.zip tbl.rows).enum.foldl (rowStep pn ti)
                (acc.1 ++ [tableLabel ti pn], acc.2)).1 ++ [.plain "\n"],
             ((table_data.zip tbl.rows).enum.foldl (rowStep pn ti)
                (acc.1 ++ [tableLabel ti pn], acc.2)).2)

/-- The dict returned by `process_single_page`. -/
structure PageDict : Type where
  page_number : Nat
  formatted_parts : List TextPart
  line_id_map : PyDict (List (Option ℚ))
deriving DecidableEq

/-- `process_single_page` (lines 41-118): find tables, extract text lines
(either call raising fails the page), emit the page and text banners, run
the line loop, then — when tables exist — the tables banner and the tables
loop. -/
def process_single_page (page : RawPage) (page_number : Nat) :
    Except Unit PageDict :=
  match page.find_tables with
  | .error e => .error e
  | .ok tables =>
    match page.extract_text_lines with
    | .error e => .error e
    | .ok text_lines =>
      match tables.enum.foldlM (fun acc p => processOneTable page_number p.1 p.2 acc)
          (if tables.isEmpty then
            ((linePhase page_number tables text_lines).1,
             (linePhase page_number tables text_lines).2.1)
          else
            ((linePhase page_number tables text_lines).1 ++ [tablesBanner],
             (linePhase page_number tables text_lines).2.1)) with
      | .error e => .error e
      | .ok res =>
          .ok { page_number := page_number,
                formatted_parts := pageBanner page_number :: textBanner :: res.1,
                line_id_map := res.2 }

/-- The dict returned by `process_single_pdf`. -/
structure DocDict : Type where
  filename : String
  total_pages : Nat
  pages : List PageDict
  formatted_parts : List TextPart
  line_id_map : PyDict (List (Option ℚ))
deriving DecidableEq

/-- The document header parts (lines 148-149). -/
def docHeader (display_name : String) (total_pages : Nat) : List TextPart :=
  [.plain (hashRule ++ "\nDOCUMENT: " ++ display_name ++ "\n" ++ hashRule ++ "\n"),
   .plain ("\nTotal Pages: " ++ natStr total_pages ++ "\n")]

/-- One iteration of the pages loop of `process_single_pdf` (lines 151-160):
a page whose processing raises is only logged — it appends no page dict, no
formatted text, and no map entries — and the loop continues. -/
def pdfStep (acc : List PageDict × List TextPart × PyDict (List (Option ℚ)))
    (p : Nat × RawPage) :
    List PageDict × List TextPart × PyDict (List (Option ℚ)) :=
  match process_single_page p.2 (p.1 + 1) with
  | .ok pd =>
      (acc.1 ++ [pd], acc.2.1 ++ pd.formatted_parts, dupdate acc.2.2 pd.line_id_map)
  | .error _ => acc

/-- `process_single_pdf` (lines 140-168): pages are processed with 1-based
page numbers after the document header is emitted. -/
def process_single_pdf (display_name : String) (pages : List RawPage) : DocDict :=
  { filename := display_name,
    total_pages := pages.length,
    pages := (pages.enum.foldl pdfStep ([], docHeader display_name pages.length, [])).1,
    formatted_parts :=
      (pages.enum.foldl pdfStep ([], docHeader display_name pages.length, [])).2.1,
    line_id_map :=
      (pages.enum.foldl pdfStep ([], docHeader display_name pages.length, [])).2.2 }

/-! ## Claim C5 -/

/-- **C5 counterexample.**  The claim says a line with any coordinate
missing or undefined is classified as outside every table (returns false).
But `line.get("x0", 0)` substitutes the number `0` for a *missing* key, so
a line with all four coordinate keys absent gets center `(0, 0)` — and when
a table's bbox contains the origin, `is_line_in_any_table` returns `true`. -/
theorem C5_counterexample :
    is_line_in_any_table
      { text := none, x0 := none, top := none, x1 := none, bottom := none }
      [{ bbox := { x0 := -1, top := -1, x1 := 1, bottom := 1 },
         rows := [], extract := .ok [] }] = true := by
  simp only [is_line_in_any_table, getCoord, Option.getD_none, List.any_cons,
    List.any_nil, Bool.or_false, Bool.and_eq_true, decide_eq_true_eq, ge_iff_le]
  norm_num

/-- **C5 amended.**  For a line whose four coordinates are all present and
non-`None`, `is_line_in_any_table` returns true iff the center point
`((x0+x1)/2, (top+bottom)/2)` lies within the closed rectangle of at least
one table bbox.  A coordinate that is present but `None` makes the function
return false without raising.  A coordinate key that is *missing* defaults
to `0`, and the line is then classified by the same center rule with that
substitution (which may classify it as inside, see the counterexample). -/
theorem C5_center_classification :
    (∀ (a t c b : ℚ) (text : Option String) (tables : List RawTable),
        is_line_in_any_table
            ⟨text, some (some a), some (some t), some (some c), some (some b)⟩
            tables = true ↔
          ∃ table ∈ tables,
            table.bbox.x0 ≤ (a + c) / 2 ∧ (a + c) / 2 ≤ table.bbox.x1 ∧
            table.bbox.top ≤ (t + b) / 2 ∧ (t + b) / 2 ≤ table.bbox.bottom) ∧
    (∀ (line : TextLine) (tables : List RawTable),
        (line.x0 = some none ∨ line.top = some none ∨
         line.x1 = some none ∨ line.bottom = some none) →
        is_line_in_any_table line tables = false) ∧
    (∀ (line : TextLine) (tables : List RawTable),
        is_line_in_any_table line tables =
          is_line_in_any_table
            { line with
              x0 := some (getCoord line.x0), top := some (getCoord line.top),
              x1 := some (getCoord line.x1), bottom := some (getCoord line.bottom) }
            tables) := by
  refine ⟨?_, ?_, ?_⟩
  · intro a t c b text tables
    simp only [is_line_in_any_table, getCoord, Option.getD_some, List.any_eq_true,
      Bool.and_eq_true, decide_eq_true_eq, ge_iff_le]
    constructor
    · rintro ⟨table, htbl, ⟨⟨⟨h1, h2⟩, h3⟩, h4⟩⟩
      exact ⟨table, htbl, h1, h2, h3, h4⟩
    · rintro ⟨table, htbl, h1, h2, h3, h4⟩
      exact ⟨table, htbl, ⟨⟨⟨h1, h2⟩, h3⟩, h4⟩⟩
  · intro line tables hnone
    rcases hx0 : getCoord line.x0 with _ | v0 <;>
      rcases ht : getCoord line.top with _ | v1 <;>
        rcases hx1 : getCoord line.x1 with _ | v2 <;>
          rcases hb : getCoord line.bottom with _ | v3 <;>
            simp only [is_line_in_any_table, hx0, ht, hx1, hb]
    exfalso
    rcases hnone with h | h | h | h
    · rw [h] at hx0; simp [getCoord] at hx0
    · rw [h] at ht; simp [getCoord] at ht
    · rw [h] at hx1; simp [getCoord] at hx1
    · rw [h] at hb; simp [getCoord] at hb
  · intro line tables
    rfl

/-- A concrete empty table spanning `(0, 0, 10, 10)`, for the C5 witness. -/
def tbl10 : RawTable :=
  { bbox := { x0 := 0, top := 0, x1 := 10, bottom := 10 },
    rows := [], extract := .ok [] }

/-- Witness for C5 (amended): a present-but-`None` coordinate yields false
even when the rest of the line sits inside a table; a fully-specified line
with center `(2, 2)` is classified by the center rule against `tbl10`. -/
theorem C5_center_classification_witness :
    is_line_in_any_table
      ⟨none, some none, some (some 1), some (some 3), some (some 3)⟩ [tbl10] = false ∧
    (is_line_in_any_table
        ⟨none, some (some 1), some (some 1), some (some 3), some (some 3)⟩
        [tbl10] = true ↔
      ∃ table ∈ [tbl10],
        table.bbox.x0 ≤ ((1 : ℚ) + 3) / 2 ∧ ((1 : ℚ) + 3) / 2 ≤ table.bbox.x1 ∧
        table.bbox.top ≤ ((1 : ℚ) + 3) / 2 ∧ ((1 : ℚ) + 3) / 2 ≤ table.bbox.bottom) :=
  ⟨C5_center_classification.2.1
      ⟨none, some none, some (some 1), some (some 3), some (some 3)⟩ [tbl10] (Or.inl rfl),
   C5_center_classification.1 1 1 3 3 none [tbl10]⟩

/-! ### Characterizations of the processing folds -/

theorem dupdate_append {β : Type} (m : PyDict β) (e1 e2 : List (String × β)) :
    dupdate m (e1 ++ e2) = dupdate (dupdate m e1) e2 := by
  simp [dupdate, List.foldl_append]

/-- The marker parts the line loop emits, starting at index `idx`. -/
def lineParts (pn : Nat) (tables : List RawTable) :
    List TextLine → Nat → List TextPart
  | [], _ => []
  | l :: ls, idx =>
    if is_line_in_any_table l tables then lineParts pn tables ls idx
    else .lineMarker (lineId pn idx) (l.text.getD "") :: lineParts pn tables ls (idx + 1)

/-- The map entries the line loop inserts, starting at index `idx`. -/
def lineEntries (pn : Nat) (tables : List RawTable) :
    List TextLine → Nat → List (String × List (Option ℚ))
  | [], _ => []
  | l :: ls, idx =>
    if is_line_in_any_table l tables then lineEntries pn tables ls idx
    else (lineId pn idx, lineBbox l) :: lineEntries pn tables ls (idx + 1)

theorem lineFold_spec (pn : Nat) (tables : List RawTable) :
    ∀ (ls : List TextLine) (parts0 : List TextPart)
      (m0 : PyDict (List (Option ℚ))) (idx0 : Nat),
      ∃ idx1, ls.foldl (linePhaseStep pn tables) (parts0, m0, idx0) =
        (parts0 ++ lineParts pn tables ls idx0,
         dupdate m0 (lineEntries pn tables ls idx0), idx1) := by
  intro ls
  induction ls with
  | nil =>
    intro parts0 m0 idx0
    exact ⟨idx0, by simp [lineParts, lineEntries, dupdate]⟩
  | cons l ls ih =>
    intro parts0 m0 idx0
    by_cases hl : is_line_in_any_table l tables
    · simp only [List.foldl_cons, linePhaseStep, if_pos hl, lineParts, lineEntries]
      exact ih parts0 m0 idx0
    · simp only [List.foldl_cons, linePhaseStep, if_neg hl, lineParts, lineEntries]
      obtain ⟨idx1, hrec⟩ := ih
        (parts0 ++ [.lineMarker (lineId pn idx0) (l.text.getD "")])
        (dinsert m0 (lineId pn idx0) (lineBbox l)) (idx0 + 1)
      refine ⟨idx1, ?_⟩
      rw [hrec]
      have h1 : parts0 ++ [TextPart.lineMarker (lineId pn idx0) (l.text.getD "")] ++
          lineParts pn tables ls (idx0 + 1) =
          parts0 ++ TextPart.lineMarker (lineId pn idx0) (l.text.getD "") ::
            lineParts pn tables ls (idx0 + 1) := by
        rw [List.append_assoc]
        rfl
      have h2 : dupdate (dinsert m0 (lineId pn idx0) (lineBbox l))
          (lineEntries pn tables ls (idx0 + 1)) =
          dupdate m0 ((lineId pn idx0, lineBbox l) :: lineEntries pn tables ls (idx0 + 1)) :=
        rfl
      rw [h1, h2]

/-- The parts one table contributes (nothing when it has no rows or — on a
successfully processed page this cannot happen — its extraction failed). -/
def tablePartsOf (pn ti : Nat) (tbl : RawTable) : List TextPart :=
  if tbl.rows.isEmpty then []
  else
    match tbl.extract with
    | .error _ => []
    | .ok td =>
        tableLabel ti pn ::
          ((td.zip tbl.rows).enum.map (fun p =>
            [TextPart.cellRow (rowCells pn ti p.1 p.2.1), TextPart.plain "\n"])).flatten ++
          [.plain "\n"]

/-- The map entries one table contributes. -/
def tableEntriesOf (pn ti : Nat) (tbl : RawTable) : List (String × List (Option ℚ)) :=
  if tbl.rows.isEmpty then []
  else
    match tbl.extract with
    | .error _ => []
    | .ok td =>
        ((td.zip tbl.rows).enum.map (fun p =>
          rowEntries pn ti p.1 p.2.1 p.2.2.bbox)).flatten

theorem rowFold_spec (pn ti : Nat) :
    ∀ (pairs : List (Nat × (List (Option String) × RawRow)))
      (parts0 : List TextPart) (m0 : PyDict (List (Option ℚ))),
      pairs.foldl (rowStep pn ti) (parts0, m0) =
        (parts0 ++ (pairs.map (fun p =>
            [TextPart.cellRow (rowCells pn ti p.1 p.2.1), TextPart.plain "\n"])).flatten,
         dupdate m0 ((pairs.map (fun p =>
            rowEntries pn ti p.1 p.2.1 p.2.2.bbox)).flatten)) := by
  intro pairs
  induction pairs with
  | nil => intro parts0 m0; simp [dupdate]
  | cons q qs ih =>
    intro parts0 m0
    simp only [List.foldl_cons, rowStep, List.map_cons, List.flatten_cons]
    rw [ih]
    rw [List.append_assoc, dupdate_append]

theorem processOneTable_ok (pn ti : Nat) (tbl : RawTable)
    (acc res : List TextPart × PyDict (List (Option ℚ)))
    (h : processOneTable pn ti tbl acc = .ok res) :
    res.1 = acc.1 ++ tablePartsOf pn ti tbl ∧
    res.2 = dupdate acc.2 (tableEntriesOf pn ti tbl) := by
  unfold processOneTable at h
  by_cases hr : tbl.rows.isEmpty
  · rw [if_pos hr] at h
    obtain rfl := Except.ok.inj h
    simp [tablePartsOf, tableEntriesOf, hr, dupdate]
  · rw [if_neg hr] at h
    rcases hx : tbl.extract with e | td
    · rw [hx] at h; cases h
    · rw [hx] at h
      obtain rfl := Except.ok.inj h
      rw [rowFold_spec]
      constructor
      · simp only [tablePartsOf, if_neg hr, hx, List.append_assoc]
        rfl
      · simp only [tableEntriesOf, if_neg hr, hx]

theorem tablesFold_spec (pn : Nat) :
    ∀ (tbls : List (Nat × RawTable)) (acc res : List TextPart × PyDict (List (Option ℚ))),
      tbls.foldlM (fun acc p => processOneTable pn p.1 p.2 acc) acc = Except.ok res →
      res.1 = acc.1 ++ (tbls.map (fun p => tablePartsOf pn p.1 p.2)).flatten ∧
      res.2 = dupdate acc.2 ((tbls.map (fun p => tableEntriesOf pn p.1 p.2)).flatten) := by
  intro tbls
  induction tbls with
  | nil =>
    intro acc res h
    obtain rfl := Except.ok.inj h
    simp [dupdate]
  | cons t ts ih =>
    intro acc res h
    rw [List.foldlM_cons] at h
    rcases ho : processOneTable pn t.1 t.2 acc with e | acc'
    · rw [ho] at h
      have : (Except.error e >>= fun acc' =>
          ts.foldlM (fun acc p => processOneTable pn p.1 p.2 acc) acc') =
          (Except.error e : Except Unit (List TextPart × PyDict (List (Option ℚ)))) := rfl
      rw [this] at h
      cases h
    · rw [ho] at h
      have hb : (Except.ok acc' >>= fun acc' =>
          ts.foldlM (fun acc p => processOneTable pn p.1 p.2 acc) acc') =
          ts.foldlM (fun acc p => processOneTable pn p.1 p.2 acc) acc' := rfl
      rw [hb] at h
      obtain ⟨hp1, hp2⟩ := processOneTable_ok pn t.1 t.2 acc acc' ho
      obtain ⟨hr1, hr2⟩ := ih acc' res h
      constructor
      · rw [hr1, hp1, List.map_cons, List.flatten_cons, List.append_assoc]
      · rw [hr2, hp2, List.map_cons, List.flatten_cons, dupdate_append]

theorem process_single_page_ok (page : RawPage) (pn : Nat) (pd : PageDict)
    (h : process_single_page page pn = .ok pd) :
    ∃ tables text_lines,
      page.find_tables = .ok tables ∧ page.extract_text_lines = .ok text_lines ∧
      pd.page_number = pn ∧
      pd.formatted_parts = pageBanner pn :: textBanner ::
        (lineParts pn tables text_lines 0 ++
          ((if tables.isEmpty then [] else [tablesBanner]) ++
            (tables.enum.map (fun p => tablePartsOf pn p.1 p.2)).flatten)) ∧
      pd.line_id_map = dictBuild (lineEntries pn tables text_lines 0 ++
        (tables.enum.map (fun p => tableEntriesOf pn p.1 p.2)).flatten) := by
  unfold process_single_page at h
  split at h
  · cases h
  · next tables hft =>
    split at h
    · cases h
    · next text_lines hetl =>
      split at h
      · cases h
      · next res hres =>
        obtain rfl := Except.ok.inj h
        obtain ⟨hr1, hr2⟩ := tablesFold_spec pn tables.enum _ res hres
        obtain ⟨idx1, hlp⟩ := lineFold_spec pn tables text_lines [] [] 0
        have hlp1 : (linePhase pn tables text_lines).1 = lineParts pn tables text_lines 0 := by
          rw [linePhase, hlp]
          simp
        have hlp2 : (linePhase pn tables text_lines).2.1 =
            dictBuild (lineEntries pn tables text_lines 0) := by
          rw [linePhase, hlp]
          rfl
        refine ⟨tables, text_lines, hft, hetl, rfl, ?_, ?_⟩
        · show pageBanner pn :: textBanner :: res.1 = _
          rw [hr1]
          by_cases hte : tables.isEmpty
          · rw [if_pos hte, if_pos hte, hlp1]
            simp
          · rw [if_neg hte, if_neg hte, hlp1]
            simp
        · show res.2 = _
          rw [hr2]
          by_cases hte : tables.isEmpty
          · rw [if_pos hte, hlp2, dictBuild, dictBuild, dupdate_append]
          · rw [if_neg hte, hlp2, dictBuild, dictBuild, dupdate_append]

theorem pdfFold_spec :
    ∀ (l : List (Nat × RawPage)) (ps0 : List PageDict) (parts0 : List TextPart)
      (m0 : PyDict (List (Option ℚ))),
      l.foldl pdfStep (ps0, parts0, m0) =
        (ps0 ++ l.filterMap (fun p => (process_single_page p.2 (p.1 + 1)).toOption),
         parts0 ++ ((l.filterMap (fun p => (process_single_page p.2 (p.1 + 1)).toOption)).map
           (fun pd => pd.formatted_parts)).flatten,
         (l.filterMap (fun p => (process_single_page p.2 (p.1 + 1)).toOption)).foldl
           (fun acc pd => dupdate acc pd.line_id_map) m0) := by
  intro l
  induction l with
  | nil => intro ps0 parts0 m0; simp
  | cons q l ih =>
    intro ps0 parts0 m0
    rcases hq : process_single_page q.2 (q.1 + 1) with e | pd
    · simp only [List.foldl_cons, pdfStep, hq, List.filterMap_cons, Except.toOption]
      exact ih ps0 parts0 m0
    · simp only [List.foldl_cons, pdfStep, hq, List.filterMap_cons, Except.toOption]
      rw [ih]
      simp only [List.map_cons, List.flatten_cons, List.foldl_cons, List.append_assoc]
      rfl

/-- The ok pages of a document, in order. -/
def okPages (pages : List RawPage) : List PageDict :=
  pages.enum.filterMap (fun p => (process_single_page p.2 (p.1 + 1)).toOption)

theorem process_single_pdf_spec (display_name : String) (pages : List RawPage) :
    (process_single_pdf display_name pages).filename = display_name ∧
    (process_single_pdf display_name pages).total_pages = pages.length ∧
    (process_single_pdf display_name pages).pages = okPages pages ∧
    (process_single_pdf display_name pages).formatted_parts =
      docHeader display_name pages.length ++
        ((okPages pages).map (fun pd => pd.formatted_parts)).flatten ∧
    (process_single_pdf display_name pages).line_id_map =
      pyMerge ((okPages pages).map (fun pd => pd.line_id_map)) := by
  refine ⟨rfl, rfl, ?_, ?_, ?_⟩
  · show (pages.enum.foldl pdfStep ([], docHeader display_name pages.length, [])).1 = _
    rw [pdfFold_spec]
    simp [okPages]
  · show (pages.enum.foldl pdfStep ([], docHeader display_name pages.length, [])).2.1 = _
    rw [pdfFold_spec]
    rfl
  · show (pages.enum.foldl pdfStep ([], docHeader display_name pages.length, [])).2.2 = _
    rw [pdfFold_spec]
    rw [pyMerge, List.foldl_map]
    rfl

/-! ### Marker bookkeeping -/

theorem markerIds_cons (x : TextPart) (l : List TextPart) :
    markerIds (x :: l) = partIds x ++ markerIds l := by
  simp [markerIds]

theorem markerIds_append (a b : List TextPart) :
    markerIds (a ++ b) = markerIds a ++ markerIds b := by
  simp [markerIds]

theorem markerIds_flatten (xss : List (List TextPart)) :
    markerIds xss.flatten = (xss.map markerIds).flatten := by
  induction xss with
  | nil => rfl
  | cons xs xss ih =>
    simp only [List.flatten_cons, markerIds_append, ih, List.map_cons]

theorem markerIds_lineParts (pn : Nat) (tables : List RawTable) :
    ∀ (ls : List TextLine) (idx : Nat),
      markerIds (lineParts pn tables ls idx) =
        (lineEntries pn tables ls idx).map Prod.fst := by
  intro ls
  induction ls with
  | nil => intro idx; rfl
  | cons l ls ih =>
    intro idx
    by_cases hl : is_line_in_any_table l tables
    · simp only [lineParts, lineEntries, if_pos hl, ih]
    · simp only [lineParts, lineEntries, if_neg hl, markerIds_cons, partIds,
        List.map_cons, ih, List.singleton_append]

theorem markerIds_tablePartsOf (pn ti : Nat) (tbl : RawTable) :
    markerIds (tablePartsOf pn ti tbl) = (tableEntriesOf pn ti tbl).map Prod.fst := by
  unfold tablePartsOf tableEntriesOf
  by_cases hr : tbl.rows.isEmpty
  · simp [hr, markerIds]
  · rw [if_neg hr, if_neg hr]
    rcases hx : tbl.extract with e | td
    · rfl
    · show markerIds (tableLabel ti pn ::
          ((td.zip tbl.rows).enum.map (fun p =>
            [TextPart.cellRow (rowCells pn ti p.1 p.2.1), TextPart.plain "\n"])).flatten ++
          [TextPart.plain "\n"]) =
        (((td.zip tbl.rows).enum.map (fun p =>
          rowEntries pn ti p.1 p.2.1 p.2.2.bbox)).flatten).map Prod.fst
      simp only [markerIds_cons, markerIds_append, markerIds_flatten]
      simp only [tableLabel, partIds, markerIds, List.map_nil, List.flatten_nil,
        List.append_nil, List.nil_append, List.map_map, List.map_flatten]
      congr 1
      apply List.map_congr_left
      intro p _
      simp only [Function.comp_apply, partIds, markerIds, List.map_cons, List.map_nil,
        List.flatten_cons, List.flatten_nil, List.append_nil, rowEntries, List.map_map]
      rfl

theorem page_marker_iff (page : RawPage) (pn : Nat) (pd : PageDict)
    (h : process_single_page page pn = .ok pd) (k : String) :
    k ∈ markerIds pd.formatted_parts ↔ dmem pd.line_id_map k := by
  obtain ⟨tables, text_lines, hft, hetl, hpn, hparts, hmap⟩ :=
    process_single_page_ok page pn pd h
  rw [hparts, hmap]
  rw [markerIds_cons, markerIds_cons]
  have hb1 : partIds (pageBanner pn) = [] := rfl
  have hb2 : partIds textBanner = [] := rfl
  rw [hb1, hb2, List.nil_append, List.nil_append, markerIds_append, markerIds_append]
  have hmid : markerIds (if tables.isEmpty then [] else [tablesBanner]) = [] := by
    by_cases hte : tables.isEmpty <;> simp [hte, markerIds, partIds, tablesBanner]
  rw [hmid, List.nil_append, markerIds_lineParts]
  have htbl : markerIds ((tables.enum.map (fun p => tablePartsOf pn p.1 p.2)).flatten) =
      ((tables.enum.map (fun p => tableEntriesOf pn p.1 p.2)).flatten).map Prod.fst := by
    rw [markerIds_flatten, List.map_map, List.map_flatten, List.map_map]
    congr 1
    apply List.map_congr_left
    intro p _
    exact markerIds_tablePartsOf pn p.1 p.2
  rw [htbl]
  show _ ↔ k ∈ dkeys (dictBuild _)
  rw [mem_dkeys_dictBuild, List.map_append]

theorem okPages_mem_ok (pages : List RawPage) (pd : PageDict) (hpd : pd ∈ okPages pages) :
    ∃ q : Nat × RawPage, q ∈ pages.enum ∧ process_single_page q.2 (q.1 + 1) = .ok pd := by
  rcases List.mem_filterMap.mp hpd with ⟨q, hq, hqpd⟩
  refine ⟨q, hq, ?_⟩
  rcases he : process_single_page q.2 (q.1 + 1) with e | pd'
  · rw [he] at hqpd
    simp [Except.toOption] at hqpd
  · rw [he] at hqpd
    simp only [Except.toOption, Option.some.injEq] at hqpd
    rw [hqpd]

/-! ## Claim C7 -/

/-- **C7.**  Identifier round-trip for every produced document: a string is
among the identifier markers emitted into the document's formatted text iff
it is a key of the document's `id_map` — no orphan markers and no orphan
map entries. -/
theorem C7_marker_roundtrip (display_name : String) (pages : List RawPage) (k : String) :
    k ∈ markerIds ((process_single_pdf display_name pages).formatted_parts) ↔
      dmem ((process_single_pdf display_name pages).line_id_map) k := by
  obtain ⟨_, _, hpages, hparts, hmap⟩ := process_single_pdf_spec display_name pages
  rw [hparts, hmap, markerIds_append]
  have hdoc : markerIds (docHeader display_name pages.length) = [] := by
    simp [docHeader, markerIds, partIds]
  rw [hdoc, List.nil_append, markerIds_flatten, List.map_map]
  show _ ↔ k ∈ dkeys (pyMerge _)
  rw [mem_dkeys_pyMerge, List.mem_flatten]
  constructor
  · rintro ⟨ids, hids, hk⟩
    rcases List.mem_map.mp hids with ⟨pd, hpd, hidspd⟩
    obtain ⟨q, hq, hok⟩ := okPages_mem_ok pages pd hpd
    have hdm : dmem pd.line_id_map k := by
      refine (page_marker_iff q.2 (q.1 + 1) pd hok k).mp ?_
      rw [← hidspd] at hk
      exact hk
    exact ⟨pd.line_id_map, List.mem_map_of_mem _ hpd, hdm⟩
  · rintro ⟨m, hm, hk⟩
    rcases List.mem_map.mp hm with ⟨pd, hpd, hmpd⟩
    obtain ⟨q, hq, hok⟩ := okPages_mem_ok pages pd hpd
    refine ⟨markerIds pd.formatted_parts, List.mem_map.mpr ⟨pd, hpd, rfl⟩, ?_⟩
    refine (page_marker_iff q.2 (q.1 + 1) pd hok k).mpr ?_
    rw [← hmpd] at hk
    exact hk

/-! ## Claim C6 -/

/-- A page whose `find_tables()` call raises. -/
def badPage : RawPage := { find_tables := .error (), extract_text_lines := .ok [] }

/-- **C6 counterexample.**  The claim says a page whose extraction throws
contributes an *empty Page* (zero lines, zero tables) to the document.  It
does not: the failing page is skipped entirely.  A one-page document whose
single page fails yields `pages = []` — no empty Page entry — while
`total_pages` still reports 1. -/
theorem C6_counterexample :
    (process_single_pdf "doc.pdf" [badPage]).pages = [] ∧
    (process_single_pdf "doc.pdf" [badPage]).total_pages = 1 :=
  ⟨rfl, rfl⟩

/-- **C6 amended.**  `process_single_pdf` never raises on a page failure
(it is a total function); the failure is only logged.  The offending page
contributes *nothing*: the document's `pages` list holds exactly the
successfully processed pages in order (`filterMap` of the per-page
outcomes), its formatted text is the document header followed by exactly
those pages' parts, and its `id_map` is the merge of exactly those pages'
maps; `total_pages` still reports the full physical page count. -/
theorem C6_failed_page_skipped (display_name : String) (pages : List RawPage) :
    (process_single_pdf display_name pages).total_pages = pages.length ∧
    (process_single_pdf display_name pages).pages =
      pages.enum.filterMap (fun p => (process_single_page p.2 (p.1 + 1)).toOption) ∧
    (process_single_pdf display_name pages).formatted_parts =
      docHeader display_name pages.length ++
        (((process_single_pdf display_name pages).pages).map
          (fun pd => pd.formatted_parts)).flatten ∧
    (process_single_pdf display_name pages).line_id_map =
      pyMerge (((process_single_pdf display_name pages).pages).map
        (fun pd => pd.line_id_map)) := by
  obtain ⟨h1, h2, h3, h4, h5⟩ := process_single_pdf_spec display_name pages
  refine ⟨h2, h3, ?_, ?_⟩
  · rw [h3]
    exact h4
  · rw [h3]
    exact h5

/-! ## Claim C8 -/

theorem mem_enum_eq {γ : Type} (l : List γ) (q : Nat × γ) (hq : q ∈ l.enum) :
    ∃ h : q.1 < l.length, l[q.1] = q.2 := by
  rcases List.mem_iff_getElem.mp hq with ⟨j, hj, hjq⟩
  have hj' : j < l.length := by simpa using hj
  rw [List.getElem_enum] at hjq
  subst hjq
  exact ⟨hj', rfl⟩

theorem lineEntries_key (pn : Nat) (tables : List RawTable) :
    ∀ (ls : List TextLine) (idx : Nat) (q : String × List (Option ℚ)),
      q ∈ lineEntries pn tables ls idx → ∃ i, q.1 = lineId pn i := by
  intro ls
  induction ls with
  | nil =>
    intro idx q hq
    simp [lineEntries] at hq
  | cons l ls ih =>
    intro idx q hq
    by_cases hl : is_line_in_any_table l tables
    · rw [lineEntries, if_pos hl] at hq
      exact ih _ q hq
    · rw [lineEntries, if_neg hl] at hq
      rcases List.mem_cons.mp hq with hq | hq
      · exact ⟨idx, by rw [hq]⟩
      · exact ih _ q hq

theorem mem_tableEntriesOf (pn ti : Nat) (tbl : RawTable) (q : String × List (Option ℚ))
    (hq : q ∈ tableEntriesOf pn ti tbl) :
    ∃ td rj cells row cj,
      tbl.extract = .ok td ∧
      (∃ h : rj < (td.zip tbl.rows).length, (td.zip tbl.rows)[rj] = (cells, row)) ∧
      cj < cells.length ∧
      q = (cellId pn ti rj cj, bboxToList row.bbox) := by
  unfold tableEntriesOf at hq
  by_cases hr : tbl.rows.isEmpty
  · rw [if_pos hr] at hq
    simp at hq
  · rw [if_neg hr] at hq
    split at hq
    · simp at hq
    · next td hxd =>
      rcases List.mem_flatten.mp hq with ⟨es, hes, hqes⟩
      rcases List.mem_map.mp hes with ⟨pr, hpr, hespr⟩
      obtain ⟨hprlt, hpreq⟩ := mem_enum_eq _ pr hpr
      subst hespr
      unfold rowEntries rowCells at hqes
      rw [List.map_map] at hqes
      rcases List.mem_map.mp hqes with ⟨cp, hcp, hcpq⟩
      obtain ⟨hcplt, hcpeq⟩ := mem_enum_eq _ cp hcp
      refine ⟨td, pr.1, pr.2.1, pr.2.2, cp.1, hxd, ⟨hprlt, by rw [hpreq]⟩, hcplt, ?_⟩
      rw [← hcpq]
      rfl

/-- **C8.**  On any successfully processed page, every `cell_id` generated
for a cell of a given table row is mapped, in the page's `id_map`, to one
identical bbox: the entire row's bounding box (`list(row_bbox)`), not the
cell's own box.  In particular any two cells of the same row (a table with
at least 2 columns has at least 2 of them) share that bbox. -/
theorem C8_row_bbox_sharing (page : RawPage) (pn : Nat) (pd : PageDict)
    (h : process_single_page page pn = .ok pd)
    (tables : List RawTable) (hft : page.find_tables = .ok tables)
    (ti : Nat) (hti : ti < tables.length)
    (td : List (List (Option String))) (hx : tables[ti].extract = .ok td)
    (ri : Nat) (cells : List (Option String)) (row : RawRow)
    (hri : ri < (td.zip tables[ti].rows).length)
    (hrow : (td.zip tables[ti].rows)[ri] = (cells, row))
    (ci : Nat) (hci : ci < cells.length) :
    dlookup pd.line_id_map (cellId pn ti ri ci) = some (bboxToList row.bbox) := by
  obtain ⟨tables', text_lines, hft', hetl, hpn, hparts, hmap⟩ :=
    process_single_page_ok page pn pd h
  rw [hft] at hft'
  replace hft' := Except.ok.inj hft'
  subst hft'
  rw [hmap, dictBuild]
  refine dlookup_dupdate_uniform _ _ _ _ ?_ (Or.inl ?_)
  · intro q hq hqk
    rcases List.mem_append.mp hq with hq | hq
    · obtain ⟨i, hkey⟩ := lineEntries_key pn tables text_lines 0 q hq
      exact absurd (hkey ▸ hqk) (lineId_ne_cellId pn i pn ti ri ci)
    · rcases List.mem_flatten.mp hq with ⟨es, hes, hqes⟩
      rcases List.mem_map.mp hes with ⟨tp, htp, hestp⟩
      rcases tp with ⟨tj, tblj⟩
      obtain ⟨htplt, htpeq⟩ := mem_enum_eq tables (tj, tblj) htp
      subst hestp
      obtain ⟨td', rj, cellsj, rowj, cj, hx', ⟨hrj, hrowj⟩, hcj, hqform⟩ :=
        mem_tableEntriesOf pn tj tblj q hqes
      have hkeys : cellId pn tj rj cj = cellId pn ti ri ci := by
        rw [← hqk, hqform]
      obtain ⟨_, h_t, h_r, h_c⟩ := cellId_inj pn tj rj cj pn ti ri ci hkeys
      dsimp only at htpeq htplt
      have h1 : tables[tj]? = some tblj := by
        rw [List.getElem?_eq_getElem htplt, htpeq]
      rw [h_t] at h1
      have h2 : tables[ti]? = some tables[ti] := List.getElem?_eq_getElem hti
      have htblj : tblj = tables[ti] := Option.some.inj ((h1.symm).trans h2)
      have hxt : tblj.extract = Except.ok td := by
        rw [htblj]
        exact hx
      have htd : td' = td := Except.ok.inj (hx'.symm.trans hxt)
      have hrowjq : (td'.zip tblj.rows)[rj]? = some (cellsj, rowj) := by
        rw [List.getElem?_eq_getElem hrj, hrowj]
      rw [h_r, htd, htblj] at hrowjq
      have hrowq : (td.zip tables[ti].rows)[ri]? = some (cells, row) := by
        rw [List.getElem?_eq_getElem hri, hrow]
      have hrows : (cellsj, rowj) = (cells, row) :=
        Option.some.inj ((hrowjq.symm).trans hrowq)
      have hroweq : rowj = row := congrArg Prod.snd hrows
      rw [hqform]
      show bboxToList rowj.bbox = bboxToList row.bbox
      rw [hroweq]
  · refine List.mem_append.mpr (Or.inr ?_)
    refine List.mem_flatten.mpr ⟨tableEntriesOf pn ti tables[ti], ?_, ?_⟩
    · refine List.mem_map.mpr ⟨(ti, tables[ti]), ?_, rfl⟩
      refine List.mem_iff_getElem.mpr ⟨ti, by simpa using hti, ?_⟩
      rw [List.getElem_enum]
    · unfold tableEntriesOf
      have hrne : ¬ tables[ti].rows.isEmpty := by
        intro hc
        rw [List.isEmpty_iff] at hc
        rw [hc] at hri
        simp at hri
      rw [if_neg hrne, hx]
      refine List.mem_flatten.mpr ⟨rowEntries pn ti ri cells row.bbox, ?_, ?_⟩
      · refine List.mem_map.mpr ⟨(ri, (cells, row)), ?_, rfl⟩
        refine List.mem_iff_getElem.mpr ⟨ri, by simpa using hri, ?_⟩
        rw [List.getElem_enum, hrow]
      · unfold rowEntries rowCells
        rw [List.map_map]
        refine List.mem_map.mpr ⟨(ci, cells[ci]), ?_, rfl⟩
        refine List.mem_iff_getElem.mpr ⟨ci, by simpa using hci, ?_⟩
        rw [List.getElem_enum]

/-- A table row spanning `(0, 0, 10, 5)`, for the C8 witness. -/
def rowW : RawRow := { bbox := { x0 := 0, top := 0, x1 := 10, bottom := 5 } }

/-- A one-row, two-column table, for the C8 witness. -/
def tblW : RawTable :=
  { bbox := { x0 := 0, top := 0, x1 := 10, bottom := 10 },
    rows := [rowW],
    extract := .ok [[some "A", some "B"]] }

/-- A page holding only `tblW`, for the C8 witness. -/
def pageW : RawPage := { find_tables := .ok [tblW], extract_text_lines := .ok [] }

/-- The page dict `process_single_page pageW 1` computes. -/
def pdW : PageDict :=
  { page_number := 1,
    formatted_parts :=
      [pageBanner 1, textBanner, tablesBanner, tableLabel 0 1,
       .cellRow [(cellId 1 0 0 0, "A"), (cellId 1 0 0 1, "B")],
       .plain "\n", .plain "\n"],
    line_id_map :=
      [(cellId 1 0 0 0, bboxToList rowW.bbox), (cellId 1 0 0 1, bboxToList rowW.bbox)] }

/-- Witness for C8: both cells of the single row map to the row's bbox. -/
theorem C8_row_bbox_sharing_witness :
    process_single_page pageW 1 = .ok pdW ∧
    dlookup pdW.line_id_map (cellId 1 0 0 0) = some (bboxToList rowW.bbox) ∧
    dlookup pdW.line_id_map (cellId 1 0 0 1) = some (bboxToList rowW.bbox) :=
  ⟨by rfl,
   C8_row_bbox_sharing pageW 1 pdW (by rfl) [tblW] rfl 0 (by decide)
     [[some "A", some "B"]] rfl 0 [some "A", some "B"] rowW (by decide) rfl 0 (by decide),
   C8_row_bbox_sharing pageW 1 pdW (by rfl) [tblW] rfl 0 (by decide)
     [[some "A", some "B"]] rfl 0 [some "A", some "B"] rowW (by decide) rfl 1 (by decide)⟩
